import Mathlib

/-!
Verification of the DawnChat plugin SDK core (message mapper / merge pass,
chat store, storage adapters, tool-task client and orchestrator, realtime
client reconnect and outbound queue), shallowly embedded from the
TypeScript sources.

Modelling conventions:
* JavaScript payloads (`Record<string, unknown>`) are association lists
  from keys to `JsVal`, the scalar fragment of JS values, plus `emptyArr`
  for the empty-array literal the mapper constructs.  A key that is not
  present reads as `undefVal`, matching JS property access.  Composite wire
  values are outside the modelled universe; the merge logic treats them
  opaquely.
* JS truthiness, `||`, `??` and `String(...)` coercion are modelled by
  `JsVal.truthy`, `JsVal.orJs`, `JsVal.nullishOr` and `JsVal.asString`.
* Machine numbers are `Int`/`ℚ`; none of the verified code paths overflow
  or use floats in a precision-sensitive way (progress values are simple
  rationals).
* `new Date(ts).toISOString()` is presentation-only; the model keeps the
  numeric timestamp in `createdAt`.
-/

set_option maxHeartbeats 1000000

namespace DawnChat

/-- Scalar JavaScript values occurring in protocol payloads, plus the
empty-array literal used as a default by the mapper. -/
inductive JsVal where
  | str (s : String)
  | num (n : Int)
  | jbool (b : Bool)
  | jnull
  | undefVal
  | emptyArr
  deriving DecidableEq, Repr

/-- JS truthiness on the modelled values (`""`, `0`, `false`, `null`,
`undefined` are falsy; `[]` is truthy). -/
def JsVal.truthy : JsVal → Bool
  | .str s => s != ""
  | .num n => n != 0
  | .jbool b => b
  | .jnull => false
  | .undefVal => false
  | .emptyArr => true

/-- JS `a || b`. -/
def JsVal.orJs (a b : JsVal) : JsVal := if a.truthy then a else b

/-- JS `a ?? b` (nullish coalescing). -/
def JsVal.nullishOr (a b : JsVal) : JsVal :=
  match a with
  | .jnull => b
  | .undefVal => b
  | v => v

/-- JS `String(v)` coercion on the modelled scalars. -/
def JsVal.asString : JsVal → String
  | .str s => s
  | .num n => toString n
  | .jbool b => if b then "true" else "false"
  | .jnull => "null"
  | .undefVal => "undefined"
  | .emptyArr => ""

/-- `JSON.stringify` on a scalar value (string escaping elided; no claim
inspects the rendering of a string-valued scalar). -/
def JsVal.scalarJson : JsVal → String
  | .str s => "\"" ++ s ++ "\""
  | .num n => toString n
  | .jbool b => if b then "true" else "false"
  | .jnull => "null"
  | .undefVal => "undefined"
  | .emptyArr => "[]"

/-- A payload object (`Record<string, unknown>`): an association list; the
first entry for a key wins, a missing key reads as `undefined`. -/
def Payload : Type := List (String × JsVal)

instance : DecidableEq Payload := by unfold Payload; infer_instance

instance : Repr Payload := by unfold Payload; infer_instance

instance : Append Payload := ⟨fun a b => List.append a b⟩

/-- JS property read `p[k]` (missing key → `undefined`). -/
def Payload.get (p : Payload) (k : String) : JsVal :=
  match p.find? (fun e => e.1 == k) with
  | some e => e.2
  | none => .undefVal

/-- `JSON.stringify` of a payload object.  `undefined`-valued entries are
skipped, mirroring JS; string escaping is elided (no claim inspects it). -/
def Payload.stringify (p : Payload) : String :=
  "\x7b" ++
    String.intercalate ","
      ((p.filter (fun e => e.2 != JsVal.undefVal)).map
        (fun e => "\"" ++ e.1 ++ "\":" ++ e.2.scalarJson)) ++
  "\x7d"

/-- `RawProtocolMessage` (shared-protocol/src/index.ts).  Optional TS
fields are `Option`s; an absent field is `none`. -/
structure RawProtocolMessage where
  id : String
  trace_id : Option String := none
  message_type : String
  project_id : Option String := none
  payload : Payload
  timestamp : Int
  sender_id : Option String := none
  status : Option String := none
  deriving DecidableEq, Repr

/-- `UIMessageType` (shared-protocol/src/index.ts). -/
inductive UIMessageType where
  | user | response | error | ack | thought | plan | todo_update
  | tool_call | tool_result | stream | hil_request | unknown
  deriving DecidableEq, Repr

/-- `UIMessage.hilStatus` values. -/
inductive HilStatus where
  | pending | accepted | rejected | edited
  deriving DecidableEq, Repr

/-- `UIMessage` (shared-protocol/src/index.ts).  Fields whose TS value is
the result of a payload cast are `JsVal` (`undefVal` = TS `undefined`);
`createdAt` keeps the numeric timestamp (ISO rendering is
presentation-only and injective). -/
structure UIMessage where
  id : String
  type : UIMessageType
  content : JsVal
  createdAt : Int
  stage : JsVal := .undefVal
  todos : JsVal := .undefVal
  reasoning : JsVal := .undefVal
  todoId : JsVal := .undefVal
  status : JsVal := .undefVal
  result : JsVal := .undefVal
  error : JsVal := .undefVal
  toolName : JsVal := .undefVal
  success : JsVal := .undefVal
  actionRequired : JsVal := .undefVal
  isFinal : JsVal := .undefVal
  errorCode : JsVal := .undefVal
  errorMessage : JsVal := .undefVal
  suggestion : JsVal := .undefVal
  payload : Payload
  hilRequestId : JsVal := .undefVal
  hilStatus : Option HilStatus := none
  hilDescription : JsVal := .undefVal
  hilRiskLevel : JsVal := .undefVal
  hilResponseText : JsVal := .undefVal
  deriving DecidableEq, Repr

/-- `MessageMapperStrings.hil`. -/
structure HilStrings where
  title : String
  responded : String
  confirmed : String
  rejected : String
  userCancelled : String
  edited : String
  deriving DecidableEq, Repr

/-- `MessageMapperStrings`. -/
structure MapperStrings where
  processing : String
  unknownError : String
  hil : HilStrings
  deriving DecidableEq, Repr

/-- `MessageMapperOptions`, with the sanitizer already resolved
(`options.sanitizeAssistantText ?? trim-default`). -/
structure MapperOptions where
  strings : MapperStrings
  sanitizeAssistantText : String → Bool → String

/-- The default sanitizer `(text, shouldTrim = true) => shouldTrim ?
text.trim() : text`. -/
def defaultSanitize (text : String) (shouldTrim : Bool) : String :=
  if shouldTrim then text.trim else text

/-- `defaultMessageMapperStrings` (sdk ui/vue/defaults.ts). -/
def defaultMessageMapperStrings : MapperStrings :=
  { processing := "正在处理"
    unknownError := "发生未知错误"
    hil :=
      { title := "需要确认的操作"
        responded := "已响应"
        confirmed := "已确认"
        rejected := "已拒绝"
        userCancelled := "用户取消"
        edited := "已编辑" } }

/-- Default mapper options as `ChatStore` builds them with no overrides. -/
def defaultMapperOptions : MapperOptions :=
  { strings := defaultMessageMapperStrings
    sanitizeAssistantText := defaultSanitize }

/-- `payload.result` handling of the `tool_result` branch:
`typeof result === 'string' ? result : JSON.stringify(result)`
(`JSON.stringify(undefined)` is `undefined`). -/
def toolResultField (p : Payload) : JsVal :=
  match p.get "result" with
  | .str s => .str s
  | .undefVal => .undefVal
  | v => .str v.scalarJson

/-- The common part of every `toUIMessage` branch. -/
def baseUIMessage (m : RawProtocolMessage) : UIMessage :=
  { id := m.id
    type := .unknown
    content := .str ""
    createdAt := m.timestamp
    payload := m.payload }

/-- `toUIMessage` (shared-protocol/src/index.ts): dispatch on
`message_type` into the typed UI message. -/
def toUIMessage (o : MapperOptions) (m : RawProtocolMessage) : UIMessage :=
  let p := m.payload
  let base := baseUIMessage m
  if m.message_type = "user_command" then
    { base with
      type := .user, content := (p.get "text").orJs (.str "") }
  else if m.message_type = "agent_ack" then
    { base with
      type := .ack
      content := (p.get "message").orJs (.str o.strings.processing) }
  else if m.message_type = "agent_thought" then
    { base with
      type := .thought
      content := (p.get "content").orJs (.str "")
      stage := (p.get "stage").orJs (.str "thinking") }
  else if m.message_type = "agent_plan" then
    { base with
      type := .plan, content := .str ""
      todos := (p.get "todos").orJs .emptyArr
      reasoning := (p.get "reasoning").orJs (.str "") }
  else if m.message_type = "todo_update" then
    { base with
      type := .todo_update, content := .str ""
      todoId := (p.get "todo_id").orJs (.str "")
      status := (p.get "status").orJs (.str "pending")
      result := p.get "result"
      error := p.get "error" }
  else if m.message_type = "tool_call" then
    { base with
      type := .tool_call, content := .str ""
      toolName := (p.get "tool_name").orJs (.str "unknown") }
  else if m.message_type = "tool_result" then
    { base with
      type := .tool_result, content := .str ""
      toolName := (p.get "tool_name").orJs (.str "unknown")
      success := (p.get "success").nullishOr (.jbool true)
      result := toolResultField p
      actionRequired := p.get "action_required" }
  else if m.message_type = "agent_stream" then
    { base with
      type := .stream
      content := .str (o.sanitizeAssistantText
        (((p.get "content").orJs ((p.get "chunk").orJs (.str ""))).asString)
        false)
      isFinal := (p.get "is_final").orJs (.jbool false) }
  else if m.message_type = "agent_response" then
    { base with
      type := .response
      content := .str (o.sanitizeAssistantText
        ((p.get "content").orJs (.str "")).asString true) }
  else if m.message_type = "agent_error" then
    { base with
      type := .error, content := .str ""
      errorCode := (p.get "code").orJs (.str "UNKNOWN")
      errorMessage := (p.get "message").orJs (.str o.strings.unknownError)
      suggestion := p.get "suggestion" }
  else if m.message_type = "human_intervention_request" then
    { base with
      type := .hil_request
      content := (p.get "description").orJs (.str o.strings.hil.title)
      hilRequestId := (p.get "request_id").orJs (.str "")
      hilStatus := some .pending
      hilDescription := (p.get "description").orJs (.str "")
      hilRiskLevel := (p.get "risk_level").orJs (.str "medium")
      toolName := (p.get "tool_name").orJs (.str "") }
  else if m.message_type = "human_intervention_response" then
    { base with
      type := .unknown, content := .str ""
      hilResponseText :=
        (p.get "response_text").orJs (.str o.strings.hil.responded) }
  else
    { base with
      type := .unknown, content := .str p.stringify }

/-! ### Generic list helpers shared by the embeddings -/

/-- In-place element update `l[i] = f(l[i])` (JS array index assignment /
`Map`-held reference mutation). -/
def updateAt {α : Type} : List α → Nat → (α → α) → List α
  | [], _, _ => []
  | a :: as, 0, f => f a :: as
  | a :: as, n + 1, f => a :: updateAt as n f

/-- JS `Array.prototype.findIndex` (first index whose element satisfies
the predicate). -/
def findIndex {α : Type} (p : α → Bool) : List α → Option Nat
  | [] => none
  | a :: as =>
    if p a then some 0 else (findIndex p as).map (· + 1)

/-! ### The merge pass (`mergeMessages`, shared-protocol/src/index.ts)

The source mutates `UIMessage` objects held both in the output array and
in the two `Map`s.  The embedding replaces object identity by an index
into the output list: each `Map` stores the index at which the referenced
entry sits, and mutation becomes `updateAt` (cf. the spec's description of
the pass as two scratch call-id→index tables). -/

/-- A scratch lookup table `Map<key, entry>`; `set` prepends, so the first
hit is the most recent binding, matching JS `Map.set` overwrite. -/
def lookupKey : List (JsVal × Nat) → JsVal → Option Nat
  | [], _ => none
  | e :: rest, k => if e.1 = k then some e.2 else lookupKey rest k

/-- `{...callPayload, ...resultPayload, arguments: callPayload?.arguments}`:
spread merge where the result's fields win, except `arguments`, which is
pinned to the call's value. -/
def mergedToolPayload (callP resP : Payload) : Payload :=
  ("arguments", callP.get "arguments") :: (resP ++ callP)

/-- The in-place upgrade of a `tool_call` entry when its `tool_result`
arrives (mergeMessages lines 242-250). -/
def mergeToolInto (resUi : UIMessage) (callE : UIMessage) : UIMessage :=
  { callE with
    type := .tool_result
    success := resUi.success
    result := resUi.result
    error := resUi.error
    payload := mergedToolPayload callE.payload resUi.payload }

/-- The in-place status update of a `hil_request` entry when a
human-intervention response with a matching `request_id` arrives
(mergeMessages lines 263-273).  `action` is compared by strict equality
against the literal strings. -/
def applyHilResponse (o : MapperOptions) (respUi : UIMessage)
    (reqE : UIMessage) : UIMessage :=
  let action := respUi.payload.get "action"
  if action = .str "accept" then
    { reqE with
      hilStatus := some .accepted
      hilResponseText := .str o.strings.hil.confirmed }
  else if action = .str "reject" then
    { reqE with
      hilStatus := some .rejected
      hilResponseText := .str (o.strings.hil.rejected.replace
        "\x7breason\x7d"
        (((respUi.payload.get "reason").orJs
          (.str o.strings.hil.userCancelled)).asString)) }
  else if action = .str "edit" then
    { reqE with
      hilStatus := some .edited
      hilResponseText := .str o.strings.hil.edited }
  else reqE

/-- The loop state of `mergeMessages`: output entries plus the two
scratch maps (call-id → entry index, request-id → entry index). -/
structure MergeState where
  entries : List UIMessage
  toolCallMap : List (JsVal × Nat)
  hilRequestMap : List (JsVal × Nat)

/-- One iteration of the `mergeMessages` loop (lines 230-278). -/
def mergeStep (o : MapperOptions) (st : MergeState)
    (m : RawProtocolMessage) : MergeState :=
  let ui := toUIMessage o m
  if ui.type = .tool_call then
    let st' : MergeState := { st with entries := st.entries ++ [ui] }
    if (ui.payload.get "tool_call_id").truthy then
      { st' with toolCallMap :=
          (ui.payload.get "tool_call_id", st.entries.length)
            :: st'.toolCallMap }
    else st'
  else if ui.type = .tool_result then
    let k := ui.payload.get "tool_call_id"
    if k.truthy then
      match lookupKey st.toolCallMap k with
      | some i =>
        { st with entries := updateAt st.entries i (mergeToolInto ui) }
      | none => { st with entries := st.entries ++ [ui] }
    else { st with entries := st.entries ++ [ui] }
  else if ui.type = .hil_request then
    let st' : MergeState := { st with entries := st.entries ++ [ui] }
    if ui.hilRequestId.truthy then
      { st' with hilRequestMap :=
          (ui.hilRequestId, st.entries.length) :: st'.hilRequestMap }
    else st'
  else if ui.type = .unknown ∧ ui.hilResponseText.truthy then
    let rid := ui.payload.get "request_id"
    if rid.truthy then
      match lookupKey st.hilRequestMap rid with
      | some i =>
        { st with entries := updateAt st.entries i (applyHilResponse o ui) }
      | none => st
    else st
  else { st with entries := st.entries ++ [ui] }

/-- The empty loop state. -/
def initMergeState : MergeState := ⟨[], [], []⟩

/-- `mergeMessages` (shared-protocol/src/index.ts, lines 225-281). -/
def mergeMessages (o : MapperOptions)
    (rawMessages : List RawProtocolMessage) : List UIMessage :=
  (rawMessages.foldl (mergeStep o) initMergeState).entries

/-! ### ChatStore (sdk ui/vue/store/ChatStore.ts) -/

/-- The spread merge `{...existing, ...message}` of `addMessage`:
required fields always come from the newer message, optional fields fall
back to the existing entry when absent from the newer one. -/
def rawMerge (a b : RawProtocolMessage) : RawProtocolMessage :=
  { id := b.id
    trace_id := b.trace_id <|> a.trace_id
    message_type := b.message_type
    project_id := b.project_id <|> a.project_id
    payload := b.payload
    timestamp := b.timestamp
    sender_id := b.sender_id <|> a.sender_id
    status := b.status <|> a.status }

/-- `ChatStore.addMessage` (lines 67-81), restricted to its effect on the
in-memory raw sequence: merge in place when the id exists, else append.
(The persistence calls do not touch the sequence.) -/
def addMessage (msgs : List RawProtocolMessage)
    (m : RawProtocolMessage) : List RawProtocolMessage :=
  match findIndex (fun item => item.id == m.id) msgs with
  | some i => updateAt msgs i (fun old => rawMerge old m)
  | none => msgs ++ [m]

/-! ### Storage adapters -/

/-- `MemoryStorageAdapter.saveMessage` (MemoryAdapter.ts lines 11-20) on
the per-key list: replace in place by id, else push.  `updateMessage`
delegates to it. -/
def memSaveMessage (list : List RawProtocolMessage)
    (m : RawProtocolMessage) : List RawProtocolMessage :=
  match findIndex (fun item => item.id == m.id) list with
  | some i => updateAt list i (fun _ => m)
  | none => list ++ [m]

/-- `MemoryStorageAdapter.loadSessionMessages`: returns a copy of the
stored list, in stored order (note: no sort). -/
def memLoadSessionMessages (list : List RawProtocolMessage) :
    List RawProtocolMessage := list

/-- A record of the browser-embedded-database `messages` object store
(IndexedDbAdapter.ts `StoredMessage`). -/
structure StoredMessage where
  key : String
  sessionId : String
  timestamp : Int
  message : RawProtocolMessage
  deriving DecidableEq

/-- `IDBObjectStore.put` with `keyPath: 'key'`: upsert by primary key.
(The real store is iterated in key order; the adapter re-sorts by
timestamp, so the claims below are insensitive to the store order.) -/
def idbPut (store : List StoredMessage) (r : StoredMessage) :
    List StoredMessage :=
  match findIndex (fun x => x.key == r.key) store with
  | some i => updateAt store i (fun _ => r)
  | none => store ++ [r]

/-- `IndexedDbAdapter.putMessage` (lines 100-117): build the record and
put it. -/
def idbPutMessage (store : List StoredMessage) (sessionId : String)
    (m : RawProtocolMessage) : List StoredMessage :=
  idbPut store
    { key := sessionId ++ ":" ++ m.id
      sessionId := sessionId
      timestamp := m.timestamp
      message := m }

/-- Timestamp order used by `sort((a, b) => a.timestamp - b.timestamp)`. -/
def tsLe (a b : RawProtocolMessage) : Prop := a.timestamp ≤ b.timestamp

instance : DecidableRel tsLe := fun a b => by
  unfold tsLe; infer_instance

instance : IsTotal RawProtocolMessage tsLe :=
  ⟨fun a b => le_total a.timestamp b.timestamp⟩

instance : IsTrans RawProtocolMessage tsLe :=
  ⟨fun _ _ _ h h' => le_trans h h'⟩

/-- `IndexedDbAdapter.loadSessionMessages` (lines 51-67): fetch all
records of the session, project the messages, sort ascending by
timestamp.  The JS comparator sort is modelled by insertion sort (sorted
and a permutation; tie order is not observed by any claim). -/
def idbLoadSessionMessages (store : List StoredMessage)
    (sessionId : String) : List RawProtocolMessage :=
  ((store.filter (fun x => x.sessionId == sessionId)).map
    (fun x => x.message)).insertionSort tsLe


/-! ### Tool subsystem: errors and HTTP request classification
(sdk ui/vue/tool/errors.ts, client.ts, task-client.ts) -/

/-- `ToolErrorCode` (tool/types.ts). -/
inductive ToolErrorCode where
  | UNKNOWN | NETWORK | HTTP_4XX | HTTP_5XX | TOOL_SUBMIT_FAILED
  | TASK_TIMEOUT | TASK_CANCELLED | TASK_FAILED | INVALID_RESPONSE
  deriving DecidableEq, Repr

/-- `codeFromHttpStatus` (tool/errors.ts lines 50-58). -/
def codeFromHttpStatus (status : Nat) : ToolErrorCode :=
  if status ≥ 500 then .HTTP_5XX
  else if status ≥ 400 then .HTTP_4XX
  else .UNKNOWN

/-- `ToolErrorDetails` (tool/types.ts); the opaque `raw` field is not
modelled (no claim reads it). -/
structure ToolErrorDetails where
  code : ToolErrorCode
  message : String
  retriable : Bool
  status : Option Nat := none
  detail : Option String := none
  deriving DecidableEq, Repr

/-- The observable outcome of one `fetch` of a tool-subsystem request:
either the transport rejects (`some msg` when the thrown value is an
`Error` with that message, `none` otherwise), or an HTTP response arrives
with a status and a body (`none` when `response.json()` rejects, i.e. the
body is not parseable JSON). -/
inductive FetchOutcome where
  | transportError (errMessage : Option String)
  | httpResponse (status : Nat) (parsedBody : Option Payload)

/-- `Response.ok`: status in the inclusive range 200-299. -/
def responseOk (status : Nat) : Bool := 200 ≤ status && status < 300

/-- The shared private `request` helper of `ToolClient` (client.ts lines
41-70) and `TaskClient` (task-client.ts lines 73-98); the two bodies are
textually identical.  Transport failure → NETWORK/retriable; non-ok
response → code from status, retriable iff status ≥ 500, message from
`body.detail ?? body.message ??` a generic status line (an unparsable
body reads as `{}`). -/
def toolRequest (outcome : FetchOutcome) : Except ToolErrorDetails Payload :=
  match outcome with
  | .transportError msg =>
    .error
      { code := .NETWORK
        message := msg.getD "Network request failed"
        retriable := true }
  | .httpResponse status parsed =>
    let body : Payload := parsed.getD []
    if responseOk status then .ok body
    else
      let detail :=
        ((body.get "detail").nullishOr ((body.get "message").nullishOr
          (.str ("Request failed: " ++ toString status)))).asString
      .error
        { code := codeFromHttpStatus status
          message := detail
          retriable := decide (status ≥ 500)
          status := some status
          detail := some detail }

/-! ### Progress normalization (task-client.ts lines 112-117 and
useToolTask.ts lines 214-220) -/

/-- The `unknown` progress input as seen through `typeof raw === 'number'
? raw : Number(raw)` followed by `Number.isFinite`: either a finite
number, a value that coerces to one, or anything else (NaN/±Infinity
included). -/
inductive ProgressInput where
  | num (q : ℚ)
  | coercesTo (q : ℚ)
  | nonNumeric
  deriving DecidableEq, Repr

/-- The finite-number view of a progress input (`none` = the
`Number.isFinite` guard fails). -/
def ProgressInput.toFiniteNumber : ProgressInput → Option ℚ
  | .num q => some q
  | .coercesTo q => some q
  | .nonNumeric => none

/-- `normalizeProgress` (task-client.ts lines 112-117): coerce to number
(non-numeric → 0), treat values above 1 as percentages, clamp to [0,1]. -/
def normalizeProgress (raw : ProgressInput) : ℚ :=
  let numeric := raw.toFiniteNumber.getD 0
  let scaled := if numeric > 1 then numeric / 100 else numeric
  max 0 (min 1 scaled)

/-- `normalizeProgress` (useToolTask.ts lines 214-220): same rule with a
floor, `Math.max(floor, clamped)`. -/
def normalizeProgressFloor (raw : ProgressInput) (floor : ℚ) : ℚ :=
  let numeric := raw.toFiniteNumber.getD 0
  let scaled := if numeric > 1 then numeric / 100 else numeric
  let clamped := max 0 (min 1 scaled)
  max floor clamped

/-! ### Tool task orchestrator (`useToolTask.run`, useToolTask.ts lines
36-122) -/

/-- `ToolTaskState` (tool/types.ts). -/
inductive ToolTaskState where
  | idle | pending | running | completed | failed | cancelled
  deriving DecidableEq, Repr

/-- `ToolCallResponse` (tool/types.ts); `result` is a payload value. -/
structure ToolCallResponse where
  status : String
  mode : Option String := none
  task_id : Option String := none
  result : JsVal := .undefVal
  deriving DecidableEq, Repr

/-- JS truthiness of an optional string (`undefined` and `""` falsy). -/
def optStrTruthy : Option String → Bool
  | some s => s != ""
  | none => false

/-- `response.mode === 'async' && response.task_id` (run, line 54). -/
def isAsyncResp (r : ToolCallResponse) : Bool :=
  r.mode == some "async" && optStrTruthy r.task_id

/-- The terminal `ToolTaskPayload` returned by `waitForCompletion` as
`run` reads it. -/
structure FinalTask where
  status : JsVal := .undefVal
  progress : ProgressInput := .nonNumeric
  progress_message : JsVal := .undefVal
  message : JsVal := .undefVal
  result : JsVal := .undefVal
  error : JsVal := .undefVal
  deriving DecidableEq, Repr

/-- The orchestrator's reactive cell values. -/
structure OrchState where
  taskId : String
  state : ToolTaskState
  progress : ℚ
  message : String
  result : JsVal
  error : String
  errorCode : ToolErrorCode
  deriving DecidableEq, Repr

/-- `reset({keepTaskId: false})` as `run` performs it first. -/
def orchReset : OrchState :=
  { taskId := ""
    state := .idle
    progress := 0
    message := ""
    result := .jnull
    error := ""
    errorCode := .UNKNOWN }

/-- One `onProgress(p, m)` callback of `run` (lines 64-67):
`progress = normalizeProgress(p, progress)`; `message = m || message`. -/
def applyProgressEvent (s : OrchState) (ev : ProgressInput × String) :
    OrchState :=
  { s with
    progress := normalizeProgressFloor ev.1 s.progress
    message := if ev.2 = "" then s.message else ev.2 }

/-- `applyError` (useToolTask.ts lines 158-170) restricted to the state
cells: set error/errorCode; unless already cancelled, move to `cancelled`
for TASK_CANCELLED and to `failed` otherwise. -/
def orchApplyError (s : OrchState) (d : ToolErrorDetails) : OrchState :=
  { s with
    error := d.message
    errorCode := d.code
    state :=
      if s.state = .cancelled then s.state
      else if d.code = .TASK_CANCELLED then .cancelled
      else .failed }

/-- The environment a single `run()` interacts with: the outcome of
`toolClient.call` (a thrown error arrives already normalized by
`normalizeError`), the `onProgress` callbacks delivered while awaiting
`waitForCompletion`, and that call's outcome. -/
structure RunEnv where
  callOutcome : Except ToolErrorDetails ToolCallResponse
  progressEvents : List (ProgressInput × String) := []
  waitOutcome : Except ToolErrorDetails FinalTask :=
    .error { code := .TASK_FAILED, message := "", retriable := false }

/-- `run(request)` (useToolTask.ts lines 36-122) as a state trace: the
list of successive `state.value` assignments, the final cell values, and
the returned/thrown outcome. -/
def runModel (env : RunEnv) :
    List ToolTaskState × OrchState × Except ToolErrorDetails JsVal :=
  let s1 := { orchReset with state := ToolTaskState.pending }
  match env.callOutcome with
  | .error e =>
    let s2 := orchApplyError s1 e
    ([.idle, .pending, s2.state], s2, .error e)
  | .ok resp =>
    if isAsyncResp resp then
      let s2 := { s1 with
        taskId := resp.task_id.getD ""
        state := ToolTaskState.running }
      let s3 := env.progressEvents.foldl applyProgressEvent s2
      match env.waitOutcome with
      | .error e =>
        let s4 := orchApplyError s3 e
        ([.idle, .pending, .running, s4.state], s4, .error e)
      | .ok ft =>
        let s4 := { s3 with
          progress := normalizeProgressFloor ft.progress s3.progress
          message :=
            (ft.progress_message.nullishOr
              (ft.message.nullishOr (.str ""))).asString }
        if ft.status = .str "completed" then
          let s5 := { s4 with
            state := ToolTaskState.completed
            result := ft.result }
          ([.idle, .pending, .running, .completed], s5, .ok ft.result)
        else if ft.status = .str "cancelled" then
          let e : ToolErrorDetails :=
            { code := .TASK_CANCELLED
              message := (ft.error.nullishOr (.str "Task cancelled")).asString
              retriable := false }
          let s5 := orchApplyError
            { s4 with state := ToolTaskState.cancelled } e
          ([.idle, .pending, .running, .cancelled], s5, .error e)
        else
          let e : ToolErrorDetails :=
            { code := .TASK_FAILED
              message := (ft.error.nullishOr (.str "Task failed")).asString
              retriable := false }
          let s5 := orchApplyError s4 e
          ([.idle, .pending, .running, s5.state], s5, .error e)
    else
      let s2 := { s1 with
        state := ToolTaskState.completed
        progress := 1
        result := resp.result }
      ([.idle, .pending, .completed], s2, .ok resp.result)

/-! ### Realtime client (`ZmpLiteClient`, src/unnamed/part_001) -/

/-- `ConnectionState` (src/unnamed/part_002). -/
inductive ConnectionState where
  | idle | connecting | open | closed | error | reconnecting
  deriving DecidableEq, Repr

/-- The optional `reconnect` block of `ZmpLiteClientOptions`; every field
is itself optional. -/
structure ReconnectConfig where
  enabled : Option Bool := none
  maxAttempts : Option Nat := none
  baseDelay : Option Nat := none
  deriving DecidableEq, Repr

/-- The client state the reconnect policy touches. -/
structure ClientState where
  reconnectAttempts : Nat
  connState : ConnectionState
  deriving DecidableEq, Repr

/-- `shouldReconnect` (part_001 lines 254-259): reconnection enabled and
the attempt counter below `maxAttempts ?? 0`. -/
def shouldReconnect (cfg : Option ReconnectConfig) (attempts : Nat) :
    Bool :=
  match cfg with
  | none => false
  | some c =>
    if !(c.enabled.getD false) then false
    else if attempts ≥ c.maxAttempts.getD 0 then false
    else true

/-- `scheduleReconnect` (part_001 lines 261-270): compute
`delay = (baseDelay ?? 1000) * 2^attempts`, increment the counter, move
to `reconnecting`; returns the scheduled delay. -/
def scheduleReconnect (cfg : Option ReconnectConfig) (st : ClientState) :
    ClientState × Option Nat :=
  match cfg with
  | none => (st, none)
  | some c =>
    if !(c.enabled.getD false) then (st, none)
    else
      let delay := c.baseDelay.getD 1000 * 2 ^ st.reconnectAttempts
      ({ st with
          reconnectAttempts := st.reconnectAttempts + 1
          connState := ConnectionState.reconnecting },
        some delay)

/-- The `ws.onclose` handler (part_001 lines 82-89), for a close not
issued by `disconnect()`: move to `closed`, then schedule a reconnect
when the policy allows. -/
def onCloseModel (cfg : Option ReconnectConfig) (st : ClientState) :
    ClientState × Option Nat :=
  let st1 := { st with connState := ConnectionState.closed }
  if shouldReconnect cfg st1.reconnectAttempts then
    scheduleReconnect cfg st1
  else (st1, none)

/-- `ZmpEnvelope` (src/unnamed/part_002). -/
structure ZmpEnvelope where
  trace_id : String
  message_id : String
  project_id : String
  timestamp : Int
  type : String
  direction : String
  payload : Payload
  deriving DecidableEq, Repr

/-- `sendEnvelopeInternal` queueing branch: envelopes sent while the
transport is not open are pushed to the back of `pendingMessages`. -/
def enqueuePending (queue : List ZmpEnvelope) (e : ZmpEnvelope) :
    List ZmpEnvelope :=
  queue ++ [e]

/-- `flushPendingMessages` (part_001 lines 172-183).  The transport's
openness at each iteration of the loop is an oracle indexed by the number
of sends performed so far; `shift` + failed readiness check + `unshift`
is observationally a peek, so the model checks before removing.  Returns
(envelopes sent, envelopes still queued). -/
def flushPendingMessages (openAt : Nat → Bool) :
    Nat → List ZmpEnvelope → List ZmpEnvelope × List ZmpEnvelope
  | _, [] => ([], [])
  | step, msg :: rest =>
    if openAt step then
      let r := flushPendingMessages openAt (step + 1) rest
      (msg :: r.1, r.2)
    else ([], msg :: rest)


/-! ### Specification-side definitions used to state the claims -/

/-- Ids in first-occurrence order (the claim's "position of its first
insertion"). -/
def firstDedup (l : List String) : List String :=
  l.foldl (fun acc x => if x ∈ acc then acc else acc ++ [x]) []

/-- Left fold of the shallow last-write-wins merge over all messages
with one id, in call order. -/
def mergeAll (c : RawProtocolMessage) (cs : List RawProtocolMessage) :
    RawProtocolMessage :=
  cs.foldl rawMerge c

/-- The entries "for the pair": output entries carrying the id of the
call/request or of the result/response raw message. -/
def pairP (idc idr : String) (e : UIMessage) : Bool :=
  e.id == idc || e.id == idr

/-- `m` would (re)bind `k` in the call-id map: it maps to a `tool_call`
with truthy `tool_call_id` equal to `k`. -/
def registersToolKey (o : MapperOptions) (k : JsVal)
    (m : RawProtocolMessage) : Prop :=
  (toUIMessage o m).type = .tool_call
    ∧ m.payload.get "tool_call_id" = k ∧ k.truthy

/-- `m` would (re)bind `k` in the request-id map: it maps to a
`hil_request` whose (defaulted) `hilRequestId` is `k`, truthy. -/
def registersHilKey (o : MapperOptions) (k : JsVal)
    (m : RawProtocolMessage) : Prop :=
  (toUIMessage o m).type = .hil_request
    ∧ (toUIMessage o m).hilRequestId = k ∧ k.truthy

/-- `m` is a human-intervention response (as the merge pass recognises
one) keyed `k`. -/
def respondsHilKey (o : MapperOptions) (k : JsVal)
    (m : RawProtocolMessage) : Prop :=
  (toUIMessage o m).type = .unknown
    ∧ (toUIMessage o m).hilResponseText.truthy
    ∧ m.payload.get "request_id" = k

/-- `m` neither carries one of the pair ids nor touches the reserved
tool-call / request ids.  `tk`/`hk` are the reserved keys (when given). -/
def benign (o : MapperOptions) (idc idr : String)
    (tk hk : Option JsVal) (m : RawProtocolMessage) : Prop :=
  m.id ≠ idc ∧ m.id ≠ idr
  ∧ (∀ k, tk = some k →
      ¬(((toUIMessage o m).type = .tool_call
          ∨ (toUIMessage o m).type = .tool_result)
        ∧ m.payload.get "tool_call_id" = k))
  ∧ (∀ k, hk = some k →
      ¬ registersHilKey o k m ∧ ¬ respondsHilKey o k m)

/-- Fold-invariant of the merge pass used by the C1/C2 theorems.
`tg`/`hg` is an optional protected binding `(key, index, entry)` of the
call-id / request-id map; `tabs`/`habs` an optional key known absent from
the respective map; `F` the current entries carrying a pair id. -/
def MInv (idc idr : String) (tg hg : Option (JsVal × Nat × UIMessage))
    (tabs habs : Option JsVal) (F : List UIMessage) (st : MergeState) :
    Prop :=
  st.entries.filter (pairP idc idr) = F
  ∧ (∀ k i E, tg = some (k, i, E) →
      lookupKey st.toolCallMap k = some i
        ∧ st.entries.get? i = some E ∧ pairP idc idr E = true)
  ∧ (∀ k i E, hg = some (k, i, E) →
      lookupKey st.hilRequestMap k = some i
        ∧ st.entries.get? i = some E ∧ pairP idc idr E = true)
  ∧ (∀ k i, lookupKey st.toolCallMap k = some i →
      (∃ E, tg = some (k, i, E))
        ∨ ∃ e, st.entries.get? i = some e ∧ pairP idc idr e = false)
  ∧ (∀ k i, lookupKey st.hilRequestMap k = some i →
      (∃ E, hg = some (k, i, E))
        ∨ ∃ e, st.entries.get? i = some e ∧ pairP idc idr e = false)
  ∧ (∀ k, tabs = some k → lookupKey st.toolCallMap k = none)
  ∧ (∀ k, habs = some k → lookupKey st.hilRequestMap k = none)


/-- The common upsert-by-id shape of `ChatStore.addMessage` and
`MemoryStorageAdapter.saveMessage`: find the first entry with the new
message's id, update it in place with `g old m`, else append. -/
def upsertBy (g : RawProtocolMessage → RawProtocolMessage → RawProtocolMessage)
    (l : List RawProtocolMessage) (m : RawProtocolMessage) :
    List RawProtocolMessage :=
  match findIndex (fun item => item.id == m.id) l with
  | some i => updateAt l i (fun old => g old m)
  | none => l ++ [m]

/-- The last write of a nonempty id-group, in call order. -/
def lastWrite (c : RawProtocolMessage) (cs : List RawProtocolMessage) :
    RawProtocolMessage :=
  cs.foldl (fun _ m => m) c

/-- The stored record `putMessage` builds for session `S`. -/
def toStoredRecord (S : String) (m : RawProtocolMessage) : StoredMessage :=
  { key := S ++ ":" ++ m.id
    sessionId := S
    timestamp := m.timestamp
    message := m }

/-- A reconnect configuration with the claim's `baseDelay = 1000` and a
given `maxAttempts`, reconnection enabled. -/
def reconnectCfg1000 (M : Nat) : ReconnectConfig :=
  { enabled := some true
    maxAttempts := some M
    baseDelay := some 1000 }

/-! ## Theorems -/

/-- C4: progress normalization (task-client.ts `normalizeProgress`): a
non-numeric input maps to 0; a numeric input above 1 is divided by 100;
the result is always clamped to [0,1]; and the spec's five instances
`normalize(0.5)=0.5`, `normalize(50)=0.5`, `normalize(150)=1`,
`normalize("abc")=0`, `normalize(-5)=0`. -/
theorem C4_normalizeProgress_spec :
    normalizeProgress .nonNumeric = 0
    ∧ (∀ q : ℚ, q > 1 →
        normalizeProgress (.num q) = max 0 (min 1 (q / 100)))
    ∧ (∀ r : ProgressInput,
        0 ≤ normalizeProgress r ∧ normalizeProgress r ≤ 1)
    ∧ normalizeProgress (.num (1 / 2)) = 1 / 2
    ∧ normalizeProgress (.num 50) = 1 / 2
    ∧ normalizeProgress (.num 150) = 1
    ∧ normalizeProgress (.num (-5)) = 0 := by
  refine ⟨by norm_num [normalizeProgress, ProgressInput.toFiniteNumber],
    ?_, ?_, ?_, ?_, ?_, ?_⟩
  · intro q hq
    simp only [normalizeProgress, ProgressInput.toFiniteNumber,
      Option.getD_some, if_pos hq]
  · intro r
    constructor
    · exact le_max_left 0 _
    · exact max_le (by norm_num) (min_le_left 1 _)
  · norm_num [normalizeProgress, ProgressInput.toFiniteNumber]
  · norm_num [normalizeProgress, ProgressInput.toFiniteNumber]
  · norm_num [normalizeProgress, ProgressInput.toFiniteNumber]
  · norm_num [normalizeProgress, ProgressInput.toFiniteNumber]

/-- Witness for C4: the percentage rule and the clamp evaluated at
concrete inputs through the theorem. -/
theorem C4_normalizeProgress_spec_witness :
    normalizeProgress (.num 2) = max 0 (min 1 (2 / 100))
    ∧ 0 ≤ normalizeProgress (.num 3) ∧ normalizeProgress (.num 3) ≤ 1 :=
  ⟨C4_normalizeProgress_spec.2.1 2 (by norm_num),
    C4_normalizeProgress_spec.2.2.1 (.num 3)⟩

/-- C10: during one `run()`, every progress callback applies the
normalization rule with the current value as floor, so the exposed
progress never decreases (per event and along any event sequence), and a
callback with an empty message string leaves the stored message
unchanged. -/
theorem C10_progress_monotone :
    (∀ (s : OrchState) (ev : ProgressInput × String),
      s.progress ≤ (applyProgressEvent s ev).progress)
    ∧ (∀ (s : OrchState) (ev : ProgressInput × String),
        (applyProgressEvent s ev).progress =
          normalizeProgressFloor ev.1 s.progress)
    ∧ (∀ (raw : ProgressInput) (floor : ℚ),
        floor ≤ normalizeProgressFloor raw floor)
    ∧ (∀ (s : OrchState) (p : ProgressInput),
        (applyProgressEvent s (p, "")).message = s.message)
    ∧ (∀ (s : OrchState) (evs : List (ProgressInput × String)),
        s.progress ≤ (evs.foldl applyProgressEvent s).progress) := by
  have hfloor : ∀ (raw : ProgressInput) (floor : ℚ),
      floor ≤ normalizeProgressFloor raw floor := by
    intro raw floor
    exact le_max_left floor _
  have hstep : ∀ (s : OrchState) (ev : ProgressInput × String),
      s.progress ≤ (applyProgressEvent s ev).progress := by
    intro s ev
    exact hfloor ev.1 s.progress
  refine ⟨hstep, fun _ _ => rfl, hfloor, fun _ _ => rfl, ?_⟩
  intro s evs
  induction evs generalizing s with
  | nil => exact le_refl _
  | cons ev rest ih =>
    exact le_trans (hstep s ev) (ih (applyProgressEvent s ev))

/-- C9: the outbound queue is FIFO (`enqueuePending` appends at the
back); a flush sends a prefix of the queue in order and leaves the rest
queued in order — the concatenation of sent and remaining envelopes is
always the original queue — and with the transport open throughout, the
whole queue is sent in order and nothing remains. -/
theorem C9_flush_fifo :
    (∀ (openAt : Nat → Bool) (step : Nat) (q : List ZmpEnvelope),
      (flushPendingMessages openAt step q).1
        ++ (flushPendingMessages openAt step q).2 = q)
    ∧ (∀ q : List ZmpEnvelope,
        flushPendingMessages (fun _ => true) 0 q = (q, []))
    ∧ (∀ (q : List ZmpEnvelope) (e : ZmpEnvelope),
        enqueuePending q e = q ++ [e]) := by
  have hopen : ∀ (step : Nat) (q : List ZmpEnvelope),
      flushPendingMessages (fun _ => true) step q = (q, []) := by
    intro step q
    induction q generalizing step with
    | nil => rfl
    | cons m rest ih =>
      simp [flushPendingMessages, ih]
  refine ⟨?_, fun q => hopen 0 q, fun _ _ => rfl⟩
  intro openAt step q
  induction q generalizing step with
  | nil => rfl
  | cons m rest ih =>
    by_cases h : openAt step
    · simp [flushPendingMessages, h, ih]
    · simp [flushPendingMessages, h]


/-- C8: failures of the shared tool-subsystem HTTP helper are typed by
class: transport exception → NETWORK, retriable; status ≥ 500 → HTTP_5XX,
retriable; status 400-499 → HTTP_4XX, not retriable; and an unparsable
error body degrades to the generic `Request failed: <status>` message. -/
theorem C8_toolRequest_classification :
    (∀ msg, ∃ d, toolRequest (.transportError msg) = .error d
      ∧ d.code = .NETWORK ∧ d.retriable = true)
    ∧ (∀ (status : Nat) body, 500 ≤ status →
        ∃ d, toolRequest (.httpResponse status body) = .error d
          ∧ d.code = .HTTP_5XX ∧ d.retriable = true)
    ∧ (∀ (status : Nat) body, 400 ≤ status → status ≤ 499 →
        ∃ d, toolRequest (.httpResponse status body) = .error d
          ∧ d.code = .HTTP_4XX ∧ d.retriable = false)
    ∧ (∀ status : Nat, responseOk status = false →
        ∃ d, toolRequest (.httpResponse status none) = .error d
          ∧ d.message = "Request failed: " ++ toString status) := by
  refine ⟨?_, ?_, ?_, ?_⟩
  · intro msg
    exact ⟨_, rfl, rfl, rfl⟩
  · intro status body h
    have hok : responseOk status = false := by
      simp only [responseOk, Bool.and_eq_false_iff]
      right
      simp only [decide_eq_false_iff_not, not_lt]
      omega
    simp only [toolRequest, hok, Bool.false_eq_true, if_false]
    refine ⟨_, rfl, ?_, ?_⟩
    · simp only [codeFromHttpStatus, if_pos (show status ≥ 500 from h)]
    · simp only [decide_eq_true_eq]
      exact h
  · intro status body h4 h5
    have hok : responseOk status = false := by
      simp only [responseOk, Bool.and_eq_false_iff]
      right
      simp only [decide_eq_false_iff_not, not_lt]
      omega
    have hlt : ¬ status ≥ 500 := by omega
    simp only [toolRequest, hok, Bool.false_eq_true, if_false]
    refine ⟨_, rfl, ?_, ?_⟩
    · simp only [codeFromHttpStatus, if_neg hlt,
        if_pos (show status ≥ 400 from h4)]
    · simp only [decide_eq_false_iff_not]
      exact hlt
  · intro status h
    simp only [toolRequest, h, Bool.false_eq_true, if_false,
      Option.getD_none]
    exact ⟨_, rfl, rfl⟩

/-- Witness for C8: the four classes evaluated at concrete outcomes
through the theorem. -/
theorem C8_toolRequest_classification_witness :
    (∃ d, toolRequest (.transportError (some "boom")) = .error d
      ∧ d.code = .NETWORK ∧ d.retriable = true)
    ∧ (∃ d, toolRequest (.httpResponse 503 none) = .error d
        ∧ d.code = .HTTP_5XX ∧ d.retriable = true)
    ∧ (∃ d, toolRequest (.httpResponse 404 none) = .error d
        ∧ d.code = .HTTP_4XX ∧ d.retriable = false)
    ∧ (∃ d, toolRequest (.httpResponse 418 none) = .error d
        ∧ d.message = "Request failed: " ++ toString 418) :=
  ⟨C8_toolRequest_classification.1 (some "boom"),
    C8_toolRequest_classification.2.1 503 none (by norm_num),
    C8_toolRequest_classification.2.2.1 404 none (by norm_num) (by norm_num),
    C8_toolRequest_classification.2.2.2 418 (by decide)⟩

/-- C5: a `run()` whose call response is synchronous (not async mode with
a task id) traces `idle → pending → completed`, never visits `running`,
ends with progress exactly 1, and stores/returns the call response's
result. -/
theorem C5_run_sync (env : RunEnv) (resp : ToolCallResponse)
    (hcall : env.callOutcome = .ok resp)
    (hsync : isAsyncResp resp = false) :
    (runModel env).1 = [.idle, .pending, .completed]
    ∧ ToolTaskState.running ∉ (runModel env).1
    ∧ (runModel env).2.1.state = .completed
    ∧ (runModel env).2.1.progress = 1
    ∧ (runModel env).2.1.result = resp.result
    ∧ (runModel env).2.2 = .ok resp.result := by
  simp only [runModel, hcall, hsync, Bool.false_eq_true, if_false]
  refine ⟨?_, ?_, ?_, ?_, ?_, ?_⟩ <;>
    first
      | rfl
      | trivial
      | decide

/-- Witness for C5: a concrete synchronous response. -/
theorem C5_run_sync_witness :
    (runModel
        { callOutcome :=
            .ok { status := "success", result := JsVal.str "42" } }).1 =
      [.idle, .pending, .completed]
    ∧ (runModel
        { callOutcome :=
            .ok { status := "success", result := JsVal.str "42" } }).2.1.progress = 1
    ∧ (runModel
        { callOutcome :=
            .ok { status := "success", result := JsVal.str "42" } }).2.2 =
      .ok (JsVal.str "42") := by
  have h := C5_run_sync
    { callOutcome := .ok { status := "success", result := JsVal.str "42" } }
    { status := "success", result := JsVal.str "42" } rfl rfl
  exact ⟨h.1, h.2.2.2.1, h.2.2.2.2.2⟩

/-- C6: on a non-explicit close with `baseDelay = 1000`, a reconnect
scheduled at attempt counter `n` uses delay `1000 * 2^n` (counters 0, 1,
2 give 1000, 2000, 4000 ms) and increments the counter by one; once the
counter reaches `maxAttempts`, or reconnection is disabled or
unconfigured, nothing is scheduled and the state remains `closed`. -/
theorem C6_reconnect_policy (M n : Nat) (st : ClientState)
    (h : st.reconnectAttempts = n) :
    (n < M → onCloseModel (some (reconnectCfg1000 M)) st =
      ({ reconnectAttempts := n + 1,
         connState := ConnectionState.reconnecting }, some (1000 * 2 ^ n)))
    ∧ (M ≤ n → onCloseModel (some (reconnectCfg1000 M)) st =
        ({ st with connState := ConnectionState.closed }, none))
    ∧ (∀ cfg : ReconnectConfig, cfg.enabled.getD false = false →
        onCloseModel (some cfg) st =
          ({ st with connState := ConnectionState.closed }, none))
    ∧ onCloseModel none st =
        ({ st with connState := ConnectionState.closed }, none)
    ∧ ((onCloseModel (some (reconnectCfg1000 5)) ⟨0, .open⟩).2 = some 1000
      ∧ (onCloseModel (some (reconnectCfg1000 5)) ⟨1, .open⟩).2 = some 2000
      ∧ (onCloseModel (some (reconnectCfg1000 5)) ⟨2, .open⟩).2 = some 4000) := by
  refine ⟨?_, ?_, ?_, by rfl, by decide⟩
  · intro hlt
    have hs : shouldReconnect (some (reconnectCfg1000 M)) n = true := by
      simp only [shouldReconnect, reconnectCfg1000, Option.getD_some,
        Bool.not_true, Bool.false_eq_true, if_false, ge_iff_le]
      rw [if_neg (by omega)]
    simp only [onCloseModel, h, hs, if_true]
    simp only [scheduleReconnect, reconnectCfg1000, Option.getD_some,
      Bool.not_true, Bool.false_eq_true, if_false]
  · intro hge
    have hs : shouldReconnect (some (reconnectCfg1000 M)) n = false := by
      simp only [shouldReconnect, reconnectCfg1000, Option.getD_some,
        Bool.not_true, Bool.false_eq_true, if_false, ge_iff_le]
      rw [if_pos (by omega)]
    simp only [onCloseModel, h, hs, Bool.false_eq_true, if_false]
  · intro cfg hcfg
    have hs : shouldReconnect (some cfg) st.reconnectAttempts = false := by
      simp only [shouldReconnect, hcfg, Bool.not_false, if_true]
    simp only [onCloseModel, hs, Bool.false_eq_true, if_false]

/-- Witness for C6: the policy applied at counter 3 of 5, at an exhausted
counter, and with reconnection disabled. -/
theorem C6_reconnect_policy_witness :
    (onCloseModel (some (reconnectCfg1000 5)) ⟨3, .open⟩ =
      ({ reconnectAttempts := 4,
         connState := ConnectionState.reconnecting }, some 8000))
    ∧ (onCloseModel (some (reconnectCfg1000 5)) ⟨5, .open⟩ =
        ({ reconnectAttempts := 5, connState := ConnectionState.closed },
          none))
    ∧ (onCloseModel
        (some { reconnectCfg1000 5 with enabled := some false })
        ⟨0, .open⟩ =
      ({ reconnectAttempts := 0, connState := ConnectionState.closed },
        none)) := by
  refine ⟨?_, ?_, ?_⟩
  · have h := (C6_reconnect_policy 5 3 ⟨3, .open⟩ rfl).1 (by norm_num)
    simpa using h
  · have h := (C6_reconnect_policy 5 5 ⟨5, .open⟩ rfl).2.1 (by norm_num)
    simpa using h
  · have h := (C6_reconnect_policy 5 0 ⟨0, .open⟩ rfl).2.2.1
      { reconnectCfg1000 5 with enabled := some false } (by rfl)
    simpa using h

/-! ### List helper lemmas -/

theorem length_updateAt {α : Type} (l : List α) (i : Nat) (f : α → α) :
    (updateAt l i f).length = l.length := by
  induction l generalizing i with
  | nil => rfl
  | cons a as ih =>
    cases i with
    | zero => rfl
    | succ n => simp [updateAt, ih]

theorem get?_updateAt_ne {α : Type} (l : List α) (i j : Nat) (f : α → α)
    (h : j ≠ i) : (updateAt l i f).get? j = l.get? j := by
  induction l generalizing i j with
  | nil => rfl
  | cons a as ih =>
    cases i with
    | zero =>
      cases j with
      | zero => exact absurd rfl h
      | succ n => rfl
    | succ n =>
      cases j with
      | zero => rfl
      | succ k =>
        simp only [updateAt, List.get?_cons_succ]
        exact ih n k (fun hk => h (by omega))

theorem get?_updateAt_self {α : Type} (l : List α) (i : Nat) (f : α → α)
    (e : α) (h : l.get? i = some e) :
    (updateAt l i f).get? i = some (f e) := by
  induction l generalizing i with
  | nil => simp at h
  | cons a as ih =>
    cases i with
    | zero =>
      simp only [List.get?_cons_zero, Option.some.injEq] at h
      simp [updateAt, h]
    | succ n =>
      simp only [List.get?_cons_succ] at h
      simpa [updateAt] using ih n h

theorem filter_updateAt_of_false {α : Type} (P : α → Bool) (l : List α)
    (i : Nat) (f : α → α) (e : α) (h : l.get? i = some e)
    (he : P e = false) (hf : P (f e) = false) :
    (updateAt l i f).filter P = l.filter P := by
  induction l generalizing i with
  | nil => rfl
  | cons a as ih =>
    cases i with
    | zero =>
      simp only [List.get?_cons_zero, Option.some.injEq] at h
      subst h
      simp [updateAt, List.filter_cons, he, hf]
    | succ n =>
      simp only [List.get?_cons_succ] at h
      simp only [updateAt, List.filter_cons]
      rw [ih n h]

theorem filter_updateAt_singleton {α : Type} (P : α → Bool) (l : List α)
    (i : Nat) (f : α → α) (a : α) (hfil : l.filter P = [a])
    (hget : l.get? i = some a) (hfa : P (f a) = true) :
    (updateAt l i f).filter P = [f a] := by
  induction l generalizing i with
  | nil => simp at hfil
  | cons x xs ih =>
    have hPa : P a = true := by
      have : a ∈ List.filter P (x :: xs) := by
        rw [hfil]; exact List.mem_singleton_self a
      exact (List.mem_filter.mp this).2
    cases i with
    | zero =>
      simp only [List.get?_cons_zero, Option.some.injEq] at hget
      subst hget
      simp only [List.filter_cons, hPa, if_pos] at hfil
      have hxs : xs.filter P = [] := by
        simpa using hfil
      simp [updateAt, List.filter_cons, hfa, hxs]
    | succ n =>
      simp only [List.get?_cons_succ] at hget
      have hmem : a ∈ xs := List.get?_mem hget
      have hmemf : a ∈ xs.filter P := List.mem_filter.mpr ⟨hmem, hPa⟩
      by_cases hx : P x = true
      · -- then filter (x :: xs) = x :: filter xs = [a]; so filter xs = []
        simp only [List.filter_cons, hx, if_pos] at hfil
        have : xs.filter P = [] := by
          have := congrArg List.tail hfil
          simpa using this
        rw [this] at hmemf
        simp at hmemf
      · simp only [List.filter_cons, hx] at hfil
        simp only [Bool.false_eq_true, if_false] at hfil
        simp only [updateAt, List.filter_cons, hx, Bool.false_eq_true,
          if_false]
        exact ih n hfil hget

theorem map_updateAt_eq {α β : Type} (g : α → β) (l : List α) (i : Nat)
    (f : α → α) (h : ∀ e, l.get? i = some e → g (f e) = g e) :
    (updateAt l i f).map g = l.map g := by
  induction l generalizing i with
  | nil => rfl
  | cons a as ih =>
    cases i with
    | zero =>
      simp only [updateAt, List.map_cons]
      rw [h a rfl]
    | succ n =>
      simp only [updateAt, List.map_cons]
      rw [ih n (fun e he => h e he)]

theorem findIndex_none {α : Type} (p : α → Bool) (l : List α)
    (h : findIndex p l = none) : ∀ x ∈ l, p x = false := by
  induction l with
  | nil => intro x hx; simp at hx
  | cons a as ih =>
    intro x hx
    simp only [findIndex] at h
    by_cases hpa : p a
    · simp [hpa] at h
    · rcases List.mem_cons.mp hx with rfl | hxs
      · simpa using hpa
      · have : findIndex p as = none := by
          rcases hfi : findIndex p as with _ | i
          · rfl
          · rw [if_neg hpa, hfi] at h
            simp at h
        exact ih this x hxs

theorem findIndex_some {α : Type} (p : α → Bool) (l : List α) (i : Nat)
    (h : findIndex p l = some i) :
    ∃ e, l.get? i = some e ∧ p e = true ∧ l.find? p = some e := by
  induction l generalizing i with
  | nil => simp [findIndex] at h
  | cons a as ih =>
    simp only [findIndex] at h
    by_cases hpa : p a
    · rw [if_pos hpa] at h
      cases h
      exact ⟨a, rfl, hpa, by simp [List.find?_cons, hpa]⟩
    · rw [if_neg hpa] at h
      rcases hfi : findIndex p as with _ | j
      · rw [hfi] at h; simp at h
      · rw [hfi] at h
        simp only [Option.map_some', Option.some.injEq] at h
        subst h
        obtain ⟨e, hget, hpe, hfind⟩ := ih j hfi
        refine ⟨e, by simpa using hget, hpe, ?_⟩
        rw [List.find?_cons_of_neg _ (by simpa using hpa)]
        exact hfind

theorem find?_updateAt_of_false {α : Type} (p : α → Bool) (l : List α)
    (i : Nat) (f : α → α) (e : α) (h : l.get? i = some e)
    (he : p e = false) (hf : p (f e) = false) :
    (updateAt l i f).find? p = l.find? p := by
  induction l generalizing i with
  | nil => rfl
  | cons a as ih =>
    cases i with
    | zero =>
      simp only [List.get?_cons_zero, Option.some.injEq] at h
      subst h
      simp only [updateAt]
      rw [List.find?_cons_of_neg _ (by simp [hf]),
        List.find?_cons_of_neg _ (by simp [he])]
    | succ n =>
      simp only [List.get?_cons_succ] at h
      simp only [updateAt]
      by_cases hpa : p a
      · rw [List.find?_cons_of_pos _ hpa, List.find?_cons_of_pos _ hpa]
      · rw [List.find?_cons_of_neg _ (by simpa using hpa),
          List.find?_cons_of_neg _ (by simpa using hpa)]
        exact ih n h

theorem find?_updateAt_found {α : Type} (p : α → Bool) (l : List α)
    (i : Nat) (f : α → α) (e : α) (hidx : findIndex p l = some i)
    (hget : l.get? i = some e) (hpf : p (f e) = true) :
    (updateAt l i f).find? p = some (f e) := by
  induction l generalizing i with
  | nil => simp [findIndex] at hidx
  | cons a as ih =>
    simp only [findIndex] at hidx
    by_cases hpa : p a
    · rw [if_pos hpa] at hidx
      cases hidx
      simp only [List.get?_cons_zero, Option.some.injEq] at hget
      subst hget
      simp only [updateAt]
      rw [List.find?_cons_of_pos _ hpf]
    · rw [if_neg hpa] at hidx
      rcases hfi : findIndex p as with _ | j
      · rw [hfi] at hidx; simp at hidx
      · rw [hfi] at hidx
        simp only [Option.map_some', Option.some.injEq] at hidx
        subst hidx
        simp only [List.get?_cons_succ] at hget
        simp only [updateAt]
        rw [List.find?_cons_of_neg _ (by simpa using hpa)]
        exact ih j hfi hget

theorem find?_append_none {α : Type} (p : α → Bool) (l l' : List α)
    (h : l.find? p = none) : (l ++ l').find? p = l'.find? p := by
  induction l with
  | nil => rfl
  | cons a as ih =>
    rcases List.find?_eq_none.mp h a (List.mem_cons_self a as) with hpa
    rw [List.cons_append, List.find?_cons_of_neg _ (by simpa using hpa)]
    exact ih (by
      apply List.find?_eq_none.mpr
      intro x hx
      exact List.find?_eq_none.mp h x (List.mem_cons_of_mem a hx))

theorem find?_append_some {α : Type} (p : α → Bool) (l l' : List α)
    (e : α) (h : l.find? p = some e) : (l ++ l').find? p = some e := by
  induction l with
  | nil => simp at h
  | cons a as ih =>
    by_cases hpa : p a
    · rw [List.find?_cons_of_pos _ hpa] at h
      rw [List.cons_append, List.find?_cons_of_pos _ hpa]
      exact h
    · rw [List.find?_cons_of_neg _ (by simpa using hpa)] at h
      rw [List.cons_append, List.find?_cons_of_neg _ (by simpa using hpa)]
      exact ih h


/-! ### firstDedup lemmas -/

theorem firstDedup_snoc (l : List String) (v : String) :
    firstDedup (l ++ [v])
      = if v ∈ firstDedup l then firstDedup l else firstDedup l ++ [v] := by
  simp [firstDedup, List.foldl_append]

theorem mem_firstDedup (a : String) (l : List String) :
    a ∈ firstDedup l ↔ a ∈ l := by
  induction l using List.reverseRecOn with
  | nil => simp [firstDedup]
  | append_singleton l v ih =>
    rw [firstDedup_snoc]
    by_cases hv : v ∈ firstDedup l
    · rw [if_pos hv]
      simp only [List.mem_append, List.mem_singleton, ih]
      constructor
      · exact fun h => .inl h
      · rintro (h | rfl)
        · exact h
        · exact ih.mp hv
    · rw [if_neg hv]
      simp [ih]

theorem firstDedup_snoc_mem (l : List String) (v : String) (h : v ∈ l) :
    firstDedup (l ++ [v]) = firstDedup l := by
  rw [firstDedup_snoc, if_pos ((mem_firstDedup v l).mpr h)]

theorem firstDedup_snoc_not_mem (l : List String) (v : String)
    (h : v ∉ l) : firstDedup (l ++ [v]) = firstDedup l ++ [v] := by
  rw [firstDedup_snoc, if_neg (fun hh => h ((mem_firstDedup v l).mp hh))]

/-! ### The generic upsert-by-id fold -/

theorem addMessage_eq_upsertBy (l : List RawProtocolMessage)
    (m : RawProtocolMessage) :
    addMessage l m = upsertBy (fun a b => rawMerge a b) l m := rfl

theorem memSaveMessage_eq_upsertBy (l : List RawProtocolMessage)
    (m : RawProtocolMessage) :
    memSaveMessage l m = upsertBy (fun _ b => b) l m := rfl

theorem upsertBy_fold_spec
    (g : RawProtocolMessage → RawProtocolMessage → RawProtocolMessage)
    (hg : ∀ a b, a.id = b.id → (g a b).id = b.id)
    (calls : List RawProtocolMessage) :
    ((calls.foldl (upsertBy g) []).map (fun m => m.id)
        = firstDedup (calls.map (fun m => m.id)))
    ∧ (∀ v c cs,
        calls.filter (fun x => x.id == v) = c :: cs →
          (calls.foldl (upsertBy g) []).find? (fun e => e.id == v)
            = some (cs.foldl g c)) := by
  induction calls using List.reverseRecOn with
  | nil =>
    refine ⟨by simp [firstDedup], ?_⟩
    intro v c cs h
    simp at h
  | append_singleton calls m ih =>
    obtain ⟨ih1, ih2⟩ := ih
    set F := calls.foldl (upsertBy g) [] with hF
    have hfold : (calls ++ [m]).foldl (upsertBy g) [] = upsertBy g F m := by
      rw [List.foldl_append]
      rfl
    have hmapids : (calls ++ [m]).map (fun x => x.id)
        = calls.map (fun x => x.id) ++ [m.id] := by simp
    rcases hidx : findIndex (fun item => item.id == m.id) F with _ | i
    · -- id not present: append
      have hup : upsertBy g F m = F ++ [m] := by
        simp [upsertBy, hidx]
      have hnotF : ∀ x ∈ F, (x.id == m.id) = false :=
        findIndex_none _ F hidx
      have hnotid : m.id ∉ calls.map (fun x => x.id) := by
        intro hmem
        have : m.id ∈ firstDedup (calls.map (fun x => x.id)) :=
          (mem_firstDedup _ _).mpr hmem
        rw [← ih1] at this
        obtain ⟨x, hxF, hxid⟩ := List.mem_map.mp this
        have := hnotF x hxF
        rw [hxid] at this
        simp at this
      constructor
      · rw [hfold, hup, hmapids, firstDedup_snoc_not_mem _ _ hnotid,
          ← ih1]
        simp
      · intro v c cs h
        rw [List.filter_append] at h
        by_cases hv : m.id = v
        · subst hv
          have hcallsfil : calls.filter (fun x => x.id == m.id) = [] := by
            rw [List.filter_eq_nil_iff]
            intro x hx
            intro hxid
            exact hnotid (List.mem_map.mpr ⟨x, hx,
              by simpa using hxid⟩)
          rw [hcallsfil, List.nil_append] at h
          simp only [List.filter_cons, beq_self_eq_true, if_pos,
            List.filter_nil] at h
          cases h
          have hFnone : F.find? (fun e => e.id == m.id) = none := by
            apply List.find?_eq_none.mpr
            intro x hx
            simp [hnotF x hx]
          rw [hfold, hup, find?_append_none _ _ _ hFnone]
          simp [List.find?_cons]
        · have hmfil : List.filter (fun x => x.id == v) [m] = [] := by
            simp [hv]
          rw [hmfil, List.append_nil] at h
          have hFf := ih2 v c cs h
          rw [hfold, hup, find?_append_some _ _ _ _ hFf]
    · -- id present: in-place update
      obtain ⟨old, hget, hpold, hfindF⟩ := findIndex_some _ F i hidx
      have holdid : old.id = m.id := by simpa using hpold
      have hup : upsertBy g F m = updateAt F i (fun o => g o m) := by
        simp [upsertBy, hidx]
      have hgid : (g old m).id = m.id := hg old m holdid
      have hmemid : m.id ∈ calls.map (fun x => x.id) := by
        have h1 : old ∈ F := List.get?_mem hget
        have h2 : old.id ∈ F.map (fun x => x.id) :=
          List.mem_map.mpr ⟨old, h1, rfl⟩
        rw [ih1, mem_firstDedup] at h2
        rwa [holdid] at h2
      constructor
      · rw [hfold, hup, hmapids, firstDedup_snoc_mem _ _ hmemid, ← ih1]
        exact map_updateAt_eq _ F i _ (fun e he => by
          rw [hget] at he
          cases he
          rw [hgid, holdid])
      · intro v c cs h
        rw [List.filter_append] at h
        by_cases hv : m.id = v
        · subst hv
          have hcallsfil : calls.filter (fun x => x.id == m.id) ≠ [] := by
            intro hnil
            rw [List.filter_eq_nil_iff] at hnil
            obtain ⟨x, hx, hxid⟩ := List.mem_map.mp hmemid
            exact hnil x hx (by simp [hxid])
          rcases hcf : calls.filter (fun x => x.id == m.id) with _ | ⟨c0, cs0⟩
          · exact absurd hcf hcallsfil
          · rw [hcf] at h
            simp only [List.filter_cons, beq_self_eq_true, if_pos,
              List.filter_nil, List.cons_append] at h
            injection h with h1 h2
            subst h1
            subst h2
            have hold : old = cs0.foldl g c0 := by
              have hx := ih2 m.id c0 cs0 hcf
              rw [hfindF] at hx
              exact Option.some.inj hx
            rw [hfold, hup, List.foldl_append]
            simp only [List.foldl_cons, List.foldl_nil]
            rw [← hold]
            exact find?_updateAt_found _ F i _ old hidx hget
              (by simp [hgid])
        · have hmfil : List.filter (fun x => x.id == v) [m] = [] := by
            simp [hv]
          rw [hmfil, List.append_nil] at h
          rw [hfold, hup]
          rw [find?_updateAt_of_false _ F i _ old hget
            (by simp [holdid, hv]) (by simp [hgid, hv])]
          exact ih2 v c cs h

/-- C3: for every sequence of `addMessage` calls, the final raw sequence
has one entry per distinct id, ids in first-insertion order (so each
entry sits at its first-insertion position), and the entry for an id is
the shallow last-write-wins merge of all messages with that id. -/
theorem C3_addMessage_lww (calls : List RawProtocolMessage) :
    (calls.foldl addMessage []).length
      = (firstDedup (calls.map (fun m => m.id))).length
    ∧ (calls.foldl addMessage []).map (fun m => m.id)
      = firstDedup (calls.map (fun m => m.id))
    ∧ (∀ v c cs, calls.filter (fun x => x.id == v) = c :: cs →
        (calls.foldl addMessage []).find? (fun e => e.id == v)
          = some (mergeAll c cs)) := by
  have heq : calls.foldl addMessage []
      = calls.foldl (upsertBy (fun a b => rawMerge a b)) [] := by
    have : addMessage = upsertBy (fun a b => rawMerge a b) := by
      funext l m
      exact addMessage_eq_upsertBy l m
    rw [this]
  have spec := upsertBy_fold_spec (fun a b => rawMerge a b)
    (fun a b _ => rfl) calls
  refine ⟨?_, ?_, ?_⟩
  · rw [heq]
    rw [show ((calls.foldl (upsertBy fun a b => rawMerge a b) []).length
        = ((calls.foldl (upsertBy fun a b => rawMerge a b) []).map
            (fun m => m.id)).length) from (List.length_map _ _).symm]
    rw [spec.1]
  · rw [heq]; exact spec.1
  · intro v c cs h
    rw [heq]
    exact spec.2 v c cs h

/-- Witness for C3: three writes, ids `a`, `b`, `a`; the merged entry for
`a` keeps the first write's `trace_id` (absent from the second write)
while taking the second write's payload and timestamp. -/
theorem C3_addMessage_lww_witness :
    ([(⟨"a", some "t1", "user_command", none, [], 1, none, none⟩ :
          RawProtocolMessage),
        ⟨"b", none, "user_command", none, [], 2, none, none⟩,
        ⟨"a", none, "user_command", none, [("text", JsVal.str "hi")], 3,
          none, none⟩].foldl addMessage []).find?
      (fun e => e.id == "a")
      = some (mergeAll ⟨"a", some "t1", "user_command", none, [], 1,
          none, none⟩
        [⟨"a", none, "user_command", none, [("text", JsVal.str "hi")], 3,
          none, none⟩])
    ∧ mergeAll
        (⟨"a", some "t1", "user_command", none, [], 1, none, none⟩ :
          RawProtocolMessage)
        [⟨"a", none, "user_command", none, [("text", JsVal.str "hi")], 3,
          none, none⟩]
      = ⟨"a", some "t1", "user_command", none,
          [("text", JsVal.str "hi")], 3, none, none⟩ := by
  constructor
  · exact (C3_addMessage_lww _).2.2 "a" _ _ (by decide)
  · decide

/-! ### Lemmas for the adapter round trip (C7) -/

theorem findIndex_map {α β : Type} (p : β → Bool) (f : α → β)
    (l : List α) :
    findIndex p (l.map f) = findIndex (fun a => p (f a)) l := by
  induction l with
  | nil => rfl
  | cons a as ih => simp [findIndex, ih]

theorem map_updateAt_replace {α β : Type} (f : α → β) (l : List α)
    (i : Nat) (m : α) :
    (updateAt l i (fun _ => m)).map f
      = updateAt (l.map f) i (fun _ => f m) := by
  induction l generalizing i with
  | nil => rfl
  | cons a as ih =>
    cases i with
    | zero => rfl
    | succ n => simp [updateAt, ih]

theorem sessionKey_beq (S a b : String) :
    ((S ++ ":" ++ a) == (S ++ ":" ++ b)) = (a == b) := by
  rcases hab : a == b with _ | _
  · have hne : a ≠ b := by
      intro hh
      rw [hh] at hab
      simp at hab
    apply beq_eq_false_iff_ne.mpr
    intro hh
    have hd := congrArg String.data hh
    simp only [String.data_append] at hd
    exact hne (String.ext (List.append_cancel_left hd))
  · have hel : a = b := by simpa using hab
    rw [hel]
    simp

theorem idbPutMessage_map_step (S : String)
    (L : List RawProtocolMessage) (m : RawProtocolMessage) :
    idbPutMessage (L.map (toStoredRecord S)) S m
      = (memSaveMessage L m).map (toStoredRecord S) := by
  show idbPut _ _ = _
  unfold idbPut memSaveMessage
  rw [findIndex_map]
  have hpred : (fun a : RawProtocolMessage =>
      ((toStoredRecord S a).key ==
        (⟨S ++ ":" ++ m.id, S, m.timestamp, m⟩ : StoredMessage).key))
      = (fun item : RawProtocolMessage => item.id == m.id) := by
    funext a
    simpa [toStoredRecord] using sessionKey_beq S a.id m.id
  rw [show (fun a : RawProtocolMessage =>
      ((toStoredRecord S a).key ==
        ({ key := S ++ ":" ++ m.id, sessionId := S,
           timestamp := m.timestamp, message := m } :
          StoredMessage).key)) = fun item => item.id == m.id from hpred]
  rcases hfi : findIndex (fun item => item.id == m.id) L with _ | i
  all_goals simp only [hfi]
  · show List.map (toStoredRecord S) L
        ++ [⟨S ++ ":" ++ m.id, S, m.timestamp, m⟩]
      = List.map (toStoredRecord S) (L ++ [m])
    simp [toStoredRecord]
  · show updateAt (List.map (toStoredRecord S) L) i
        (fun _ => ⟨S ++ ":" ++ m.id, S, m.timestamp, m⟩)
      = List.map (toStoredRecord S) (updateAt L i (fun _ => m))
    rw [map_updateAt_replace]
    rfl

theorem idbPutMessage_fold (S : String)
    (saves : List RawProtocolMessage) :
    saves.foldl (fun st m => idbPutMessage st S m) []
      = (saves.foldl memSaveMessage []).map (toStoredRecord S) := by
  induction saves using List.reverseRecOn with
  | nil => rfl
  | append_singleton saves m ih =>
    rw [List.foldl_append, List.foldl_append, ih]
    simp only [List.foldl_cons, List.foldl_nil]
    exact idbPutMessage_map_step S _ m

theorem mem_insertionSortTs (a : RawProtocolMessage)
    (l : List RawProtocolMessage) :
    a ∈ l.insertionSort tsLe ↔ a ∈ l :=
  (List.perm_insertionSort tsLe l).mem_iff

theorem idbLoad_after_fold (S : String)
    (saves : List RawProtocolMessage) :
    idbLoadSessionMessages
        (saves.foldl (fun st m => idbPutMessage st S m) []) S
      = (saves.foldl memSaveMessage []).insertionSort tsLe := by
  rw [idbPutMessage_fold]
  unfold idbLoadSessionMessages
  have hfil : ((saves.foldl memSaveMessage []).map
        (toStoredRecord S)).filter (fun x => x.sessionId == S)
      = (saves.foldl memSaveMessage []).map (toStoredRecord S) := by
    apply List.filter_eq_self.mpr
    intro x hx
    obtain ⟨y, _, rfl⟩ := List.mem_map.mp hx
    simp [toStoredRecord]
  rw [hfil, List.map_map]
  have : (fun x : StoredMessage => x.message) ∘ toStoredRecord S
      = id := by
    funext y
    rfl
  rw [this, List.map_id]


/-- C7 counterexample: the in-memory adapter returns saves in insertion
order, not sorted by timestamp.  Saving a message with timestamp 2 and
then one with timestamp 1 under the same key, `loadSessionMessages`
returns them in insertion order `[2, 1]`, which is not ascending — the
claim's "for every storage adapter implementation … sorted ascending by
timestamp" fails on `MemoryStorageAdapter`. -/
theorem C7_roundtrip_counterexample :
    (memLoadSessionMessages
        (memSaveMessage
          (memSaveMessage []
            ⟨"a", none, "user_command", none, [], 2, none, none⟩)
          ⟨"b", none, "user_command", none, [], 1, none, none⟩)).map
      (fun m => m.timestamp) = [2, 1]
    ∧ ¬ List.Sorted tsLe
        (memLoadSessionMessages
          (memSaveMessage
            (memSaveMessage []
              ⟨"a", none, "user_command", none, [], 2, none, none⟩)
            ⟨"b", none, "user_command", none, [], 1, none, none⟩)) := by
  constructor
  · rfl
  · intro h
    have := List.rel_of_sorted_cons h
      ⟨"b", none, "user_command", none, [], 1, none, none⟩
      (by simp [memSaveMessage, memLoadSessionMessages, findIndex,
        updateAt])
    simp only [tsLe] at this
    omega

/-- C7 (amended): for any sequence of `saveMessage` calls on one key,
both adapters upsert by id — the last write for each id is contained in
the subsequent `loadSessionMessages` —, the browser-embedded-database
adapter additionally returns the sequence sorted ascending by timestamp,
while the in-memory adapter returns it in first-insertion order without
sorting (its caller re-sorts). -/
theorem C7_roundtrip_amended (S : String)
    (saves : List RawProtocolMessage) :
    (∀ v c cs, saves.filter (fun x => x.id == v) = c :: cs →
      lastWrite c cs ∈
          memLoadSessionMessages (saves.foldl memSaveMessage [])
        ∧ lastWrite c cs ∈
            idbLoadSessionMessages
              (saves.foldl (fun st m => idbPutMessage st S m) []) S)
    ∧ (memLoadSessionMessages (saves.foldl memSaveMessage [])).map
        (fun m => m.id) = firstDedup (saves.map (fun m => m.id))
    ∧ List.Sorted tsLe
        (idbLoadSessionMessages
          (saves.foldl (fun st m => idbPutMessage st S m) []) S) := by
  have heq : saves.foldl memSaveMessage []
      = saves.foldl (upsertBy (fun _ b => b)) [] := by
    have : memSaveMessage = upsertBy (fun _ b => b) := by
      funext l m
      exact memSaveMessage_eq_upsertBy l m
    rw [this]
  have spec := upsertBy_fold_spec (fun _ b => b) (fun _ _ _ => rfl) saves
  refine ⟨?_, ?_, ?_⟩
  · intro v c cs h
    have hfind := spec.2 v c cs h
    rw [← heq] at hfind
    have hmem : lastWrite c cs ∈ saves.foldl memSaveMessage [] := by
      have := List.mem_of_find?_eq_some hfind
      exact this
    constructor
    · exact hmem
    · rw [idbLoad_after_fold, mem_insertionSortTs]
      exact hmem
  · rw [heq]
    exact spec.1
  · rw [idbLoad_after_fold]
    exact List.sorted_insertionSort tsLe _

/-- Witness for C7 (amended): two writes to id `a` (timestamps 5 then 3)
and one to id `b`; both loads contain the last write for `a`, the
in-memory load keeps first-insertion id order, and the
browser-embedded-database load is sorted ascending by timestamp. -/
theorem C7_roundtrip_amended_witness :
    (lastWrite
        (⟨"a", none, "user_command", none, [], 5, none, none⟩ :
          RawProtocolMessage)
        [⟨"a", none, "user_command", none, [], 3, none, none⟩] ∈
        memLoadSessionMessages
          ([(⟨"a", none, "user_command", none, [], 5, none, none⟩ :
              RawProtocolMessage),
            ⟨"b", none, "user_command", none, [], 4, none, none⟩,
            ⟨"a", none, "user_command", none, [], 3, none,
              none⟩].foldl memSaveMessage [])
      ∧ lastWrite
          (⟨"a", none, "user_command", none, [], 5, none, none⟩ :
            RawProtocolMessage)
          [⟨"a", none, "user_command", none, [], 3, none, none⟩] ∈
          idbLoadSessionMessages
            ([(⟨"a", none, "user_command", none, [], 5, none, none⟩ :
                RawProtocolMessage),
              ⟨"b", none, "user_command", none, [], 4, none, none⟩,
              ⟨"a", none, "user_command", none, [], 3, none,
                none⟩].foldl (fun st m => idbPutMessage st "s" m) []) "s")
    ∧ List.Sorted tsLe
        (idbLoadSessionMessages
          ([(⟨"a", none, "user_command", none, [], 5, none, none⟩ :
              RawProtocolMessage),
            ⟨"b", none, "user_command", none, [], 4, none, none⟩,
            ⟨"a", none, "user_command", none, [], 3, none,
              none⟩].foldl (fun st m => idbPutMessage st "s" m) []) "s") :=
  ⟨(C7_roundtrip_amended "s" _).1 "a" _ _ (by decide),
    (C7_roundtrip_amended "s" _).2.2⟩


/-! ### toUIMessage reduction lemmas -/

theorem uiOf_tool_call (o : MapperOptions) (m : RawProtocolMessage)
    (h : m.message_type = "tool_call") :
    toUIMessage o m = { baseUIMessage m with
      type := .tool_call
      content := .str ""
      toolName := (m.payload.get "tool_name").orJs (.str "unknown") } := by
  simp [toUIMessage, h]

theorem uiOf_tool_result (o : MapperOptions) (m : RawProtocolMessage)
    (h : m.message_type = "tool_result") :
    toUIMessage o m = { baseUIMessage m with
      type := .tool_result
      content := .str ""
      toolName := (m.payload.get "tool_name").orJs (.str "unknown")
      success := (m.payload.get "success").nullishOr (.jbool true)
      result := toolResultField m.payload
      actionRequired := m.payload.get "action_required" } := by
  simp [toUIMessage, h]

theorem uiOf_hil_request (o : MapperOptions) (m : RawProtocolMessage)
    (h : m.message_type = "human_intervention_request") :
    toUIMessage o m = { baseUIMessage m with
      type := .hil_request
      content := (m.payload.get "description").orJs
        (.str o.strings.hil.title)
      hilRequestId := (m.payload.get "request_id").orJs (.str "")
      hilStatus := some .pending
      hilDescription := (m.payload.get "description").orJs (.str "")
      hilRiskLevel := (m.payload.get "risk_level").orJs (.str "medium")
      toolName := (m.payload.get "tool_name").orJs (.str "") } := by
  simp [toUIMessage, h]

theorem uiOf_hil_response (o : MapperOptions) (m : RawProtocolMessage)
    (h : m.message_type = "human_intervention_response") :
    toUIMessage o m = { baseUIMessage m with
      type := .unknown
      content := .str ""
      hilResponseText := (m.payload.get "response_text").orJs
        (.str o.strings.hil.responded) } := by
  simp [toUIMessage, h]

theorem uiOf_user_command (o : MapperOptions) (m : RawProtocolMessage)
    (h : m.message_type = "user_command") :
    toUIMessage o m = { baseUIMessage m with
      type := .user
      content := (m.payload.get "text").orJs (.str "") } := by
  simp [toUIMessage, h]

theorem uiOf_agent_ack (o : MapperOptions) (m : RawProtocolMessage)
    (h : m.message_type = "agent_ack") :
    toUIMessage o m = { baseUIMessage m with
      type := .ack
      content := (m.payload.get "message").orJs
        (.str o.strings.processing) } := by
  simp [toUIMessage, h]

theorem uiOf_agent_thought (o : MapperOptions) (m : RawProtocolMessage)
    (h : m.message_type = "agent_thought") :
    toUIMessage o m = { baseUIMessage m with
      type := .thought
      content := (m.payload.get "content").orJs (.str "")
      stage := (m.payload.get "stage").orJs (.str "thinking") } := by
  simp [toUIMessage, h]

theorem uiOf_agent_plan (o : MapperOptions) (m : RawProtocolMessage)
    (h : m.message_type = "agent_plan") :
    toUIMessage o m = { baseUIMessage m with
      type := .plan
      content := .str ""
      todos := (m.payload.get "todos").orJs .emptyArr
      reasoning := (m.payload.get "reasoning").orJs (.str "") } := by
  simp [toUIMessage, h]

theorem uiOf_todo_update (o : MapperOptions) (m : RawProtocolMessage)
    (h : m.message_type = "todo_update") :
    toUIMessage o m = { baseUIMessage m with
      type := .todo_update
      content := .str ""
      todoId := (m.payload.get "todo_id").orJs (.str "")
      status := (m.payload.get "status").orJs (.str "pending")
      result := m.payload.get "result"
      error := m.payload.get "error" } := by
  simp [toUIMessage, h]

theorem uiOf_agent_stream (o : MapperOptions) (m : RawProtocolMessage)
    (h : m.message_type = "agent_stream") :
    toUIMessage o m = { baseUIMessage m with
      type := .stream
      content := .str (o.sanitizeAssistantText
        (((m.payload.get "content").orJs
          ((m.payload.get "chunk").orJs (.str ""))).asString) false)
      isFinal := (m.payload.get "is_final").orJs (.jbool false) } := by
  simp [toUIMessage, h]

theorem uiOf_agent_response (o : MapperOptions) (m : RawProtocolMessage)
    (h : m.message_type = "agent_response") :
    toUIMessage o m = { baseUIMessage m with
      type := .response
      content := .str (o.sanitizeAssistantText
        ((m.payload.get "content").orJs (.str "")).asString true) } := by
  simp [toUIMessage, h]

theorem uiOf_agent_error (o : MapperOptions) (m : RawProtocolMessage)
    (h : m.message_type = "agent_error") :
    toUIMessage o m = { baseUIMessage m with
      type := .error
      content := .str ""
      errorCode := (m.payload.get "code").orJs (.str "UNKNOWN")
      errorMessage := (m.payload.get "message").orJs
        (.str o.strings.unknownError)
      suggestion := m.payload.get "suggestion" } := by
  simp [toUIMessage, h]

theorem uiOf_default (o : MapperOptions) (m : RawProtocolMessage)
    (h1 : m.message_type ≠ "user_command")
    (h2 : m.message_type ≠ "agent_ack")
    (h3 : m.message_type ≠ "agent_thought")
    (h4 : m.message_type ≠ "agent_plan")
    (h5 : m.message_type ≠ "todo_update")
    (h6 : m.message_type ≠ "tool_call")
    (h7 : m.message_type ≠ "tool_result")
    (h8 : m.message_type ≠ "agent_stream")
    (h9 : m.message_type ≠ "agent_response")
    (h10 : m.message_type ≠ "agent_error")
    (h11 : m.message_type ≠ "human_intervention_request")
    (h12 : m.message_type ≠ "human_intervention_response") :
    toUIMessage o m = { baseUIMessage m with
      type := .unknown
      content := .str m.payload.stringify } := by
  simp [toUIMessage, h1, h2, h3, h4, h5, h6, h7, h8, h9, h10, h11, h12]

theorem uiOf_id (o : MapperOptions) (m : RawProtocolMessage) :
    (toUIMessage o m).id = m.id := by
  by_cases h1 : m.message_type = "user_command"
  · rw [uiOf_user_command o m h1]
    rfl
  by_cases h2 : m.message_type = "agent_ack"
  · rw [uiOf_agent_ack o m h2]
    rfl
  by_cases h3 : m.message_type = "agent_thought"
  · rw [uiOf_agent_thought o m h3]
    rfl
  by_cases h4 : m.message_type = "agent_plan"
  · rw [uiOf_agent_plan o m h4]
    rfl
  by_cases h5 : m.message_type = "todo_update"
  · rw [uiOf_todo_update o m h5]
    rfl
  by_cases h6 : m.message_type = "tool_call"
  · rw [uiOf_tool_call o m h6]
    rfl
  by_cases h7 : m.message_type = "tool_result"
  · rw [uiOf_tool_result o m h7]
    rfl
  by_cases h8 : m.message_type = "agent_stream"
  · rw [uiOf_agent_stream o m h8]
    rfl
  by_cases h9 : m.message_type = "agent_response"
  · rw [uiOf_agent_response o m h9]
    rfl
  by_cases h10 : m.message_type = "agent_error"
  · rw [uiOf_agent_error o m h10]
    rfl
  by_cases h11 : m.message_type = "human_intervention_request"
  · rw [uiOf_hil_request o m h11]
    rfl
  by_cases h12 : m.message_type = "human_intervention_response"
  · rw [uiOf_hil_response o m h12]
    rfl
  rw [uiOf_default o m h1 h2 h3 h4 h5 h6 h7 h8 h9 h10 h11 h12]
  rfl

theorem uiOf_payload (o : MapperOptions) (m : RawProtocolMessage) :
    (toUIMessage o m).payload = m.payload := by
  by_cases h1 : m.message_type = "user_command"
  · rw [uiOf_user_command o m h1]
    rfl
  by_cases h2 : m.message_type = "agent_ack"
  · rw [uiOf_agent_ack o m h2]
    rfl
  by_cases h3 : m.message_type = "agent_thought"
  · rw [uiOf_agent_thought o m h3]
    rfl
  by_cases h4 : m.message_type = "agent_plan"
  · rw [uiOf_agent_plan o m h4]
    rfl
  by_cases h5 : m.message_type = "todo_update"
  · rw [uiOf_todo_update o m h5]
    rfl
  by_cases h6 : m.message_type = "tool_call"
  · rw [uiOf_tool_call o m h6]
    rfl
  by_cases h7 : m.message_type = "tool_result"
  · rw [uiOf_tool_result o m h7]
    rfl
  by_cases h8 : m.message_type = "agent_stream"
  · rw [uiOf_agent_stream o m h8]
    rfl
  by_cases h9 : m.message_type = "agent_response"
  · rw [uiOf_agent_response o m h9]
    rfl
  by_cases h10 : m.message_type = "agent_error"
  · rw [uiOf_agent_error o m h10]
    rfl
  by_cases h11 : m.message_type = "human_intervention_request"
  · rw [uiOf_hil_request o m h11]
    rfl
  by_cases h12 : m.message_type = "human_intervention_response"
  · rw [uiOf_hil_response o m h12]
    rfl
  rw [uiOf_default o m h1 h2 h3 h4 h5 h6 h7 h8 h9 h10 h11 h12]
  rfl

/-! ### mergeStep reduction lemmas -/

theorem mergeStep_toolCall_reg (o : MapperOptions) (st : MergeState)
    (m : RawProtocolMessage)
    (h : (toUIMessage o m).type = .tool_call)
    (hk : ((toUIMessage o m).payload.get "tool_call_id").truthy = true) :
    mergeStep o st m = { st with
      entries := st.entries ++ [toUIMessage o m]
      toolCallMap := ((toUIMessage o m).payload.get "tool_call_id",
        st.entries.length) :: st.toolCallMap } := by
  simp [mergeStep, h, hk]

theorem mergeStep_toolCall_noreg (o : MapperOptions) (st : MergeState)
    (m : RawProtocolMessage)
    (h : (toUIMessage o m).type = .tool_call)
    (hk : ((toUIMessage o m).payload.get "tool_call_id").truthy
      = false) :
    mergeStep o st m =
      { st with entries := st.entries ++ [toUIMessage o m] } := by
  simp [mergeStep, h, hk]

theorem mergeStep_toolResult_hit (o : MapperOptions) (st : MergeState)
    (m : RawProtocolMessage) (i : Nat)
    (h : (toUIMessage o m).type = .tool_result)
    (hk : ((toUIMessage o m).payload.get "tool_call_id").truthy = true)
    (hl : lookupKey st.toolCallMap
      ((toUIMessage o m).payload.get "tool_call_id") = some i) :
    mergeStep o st m = { st with
      entries := updateAt st.entries i (mergeToolInto (toUIMessage o m)) } := by
  have hne : (toUIMessage o m).type ≠ .tool_call := by
    rw [h]; intro hh; cases hh
  simp [mergeStep, hne, h, hk, hl]

theorem mergeStep_toolResult_missKey (o : MapperOptions)
    (st : MergeState) (m : RawProtocolMessage)
    (h : (toUIMessage o m).type = .tool_result)
    (hk : ((toUIMessage o m).payload.get "tool_call_id").truthy
      = false) :
    mergeStep o st m =
      { st with entries := st.entries ++ [toUIMessage o m] } := by
  have hne : (toUIMessage o m).type ≠ .tool_call := by
    rw [h]; intro hh; cases hh
  simp [mergeStep, hne, h, hk]

theorem mergeStep_toolResult_missMap (o : MapperOptions)
    (st : MergeState) (m : RawProtocolMessage)
    (h : (toUIMessage o m).type = .tool_result)
    (hl : lookupKey st.toolCallMap
      ((toUIMessage o m).payload.get "tool_call_id") = none) :
    mergeStep o st m =
      { st with entries := st.entries ++ [toUIMessage o m] } := by
  have hne : (toUIMessage o m).type ≠ .tool_call := by
    rw [h]; intro hh; cases hh
  by_cases hk : ((toUIMessage o m).payload.get "tool_call_id").truthy
  · simp [mergeStep, hne, h, hk, hl]
  · simp [mergeStep, hne, h, hk]

theorem mergeStep_hilReq_reg (o : MapperOptions) (st : MergeState)
    (m : RawProtocolMessage)
    (h : (toUIMessage o m).type = .hil_request)
    (hk : (toUIMessage o m).hilRequestId.truthy = true) :
    mergeStep o st m = { st with
      entries := st.entries ++ [toUIMessage o m]
      hilRequestMap := ((toUIMessage o m).hilRequestId,
        st.entries.length) :: st.hilRequestMap } := by
  have hne1 : (toUIMessage o m).type ≠ .tool_call := by
    rw [h]; intro hh; cases hh
  have hne2 : (toUIMessage o m).type ≠ .tool_result := by
    rw [h]; intro hh; cases hh
  simp [mergeStep, hne1, hne2, h, hk]

theorem mergeStep_hilReq_noreg (o : MapperOptions) (st : MergeState)
    (m : RawProtocolMessage)
    (h : (toUIMessage o m).type = .hil_request)
    (hk : (toUIMessage o m).hilRequestId.truthy = false) :
    mergeStep o st m =
      { st with entries := st.entries ++ [toUIMessage o m] } := by
  have hne1 : (toUIMessage o m).type ≠ .tool_call := by
    rw [h]; intro hh; cases hh
  have hne2 : (toUIMessage o m).type ≠ .tool_result := by
    rw [h]; intro hh; cases hh
  simp [mergeStep, hne1, hne2, h, hk]

theorem mergeStep_hilResp_hit (o : MapperOptions) (st : MergeState)
    (m : RawProtocolMessage) (i : Nat)
    (h : (toUIMessage o m).type = .unknown)
    (ht : (toUIMessage o m).hilResponseText.truthy = true)
    (hk : ((toUIMessage o m).payload.get "request_id").truthy = true)
    (hl : lookupKey st.hilRequestMap
      ((toUIMessage o m).payload.get "request_id") = some i) :
    mergeStep o st m = { st with
      entries := updateAt st.entries i
        (applyHilResponse o (toUIMessage o m)) } := by
  have hne1 : (toUIMessage o m).type ≠ .tool_call := by
    rw [h]; intro hh; cases hh
  have hne2 : (toUIMessage o m).type ≠ .tool_result := by
    rw [h]; intro hh; cases hh
  have hne3 : (toUIMessage o m).type ≠ .hil_request := by
    rw [h]; intro hh; cases hh
  simp [mergeStep, hne1, hne2, hne3, h, ht, hk, hl]

theorem mergeStep_hilResp_dropKey (o : MapperOptions) (st : MergeState)
    (m : RawProtocolMessage)
    (h : (toUIMessage o m).type = .unknown)
    (ht : (toUIMessage o m).hilResponseText.truthy = true)
    (hk : ((toUIMessage o m).payload.get "request_id").truthy
      = false) :
    mergeStep o st m = st := by
  have hne1 : (toUIMessage o m).type ≠ .tool_call := by
    rw [h]; intro hh; cases hh
  have hne2 : (toUIMessage o m).type ≠ .tool_result := by
    rw [h]; intro hh; cases hh
  have hne3 : (toUIMessage o m).type ≠ .hil_request := by
    rw [h]; intro hh; cases hh
  simp [mergeStep, hne1, hne2, hne3, h, ht, hk]

theorem mergeStep_hilResp_dropMap (o : MapperOptions) (st : MergeState)
    (m : RawProtocolMessage)
    (h : (toUIMessage o m).type = .unknown)
    (ht : (toUIMessage o m).hilResponseText.truthy = true)
    (hl : lookupKey st.hilRequestMap
      ((toUIMessage o m).payload.get "request_id") = none) :
    mergeStep o st m = st := by
  have hne1 : (toUIMessage o m).type ≠ .tool_call := by
    rw [h]; intro hh; cases hh
  have hne2 : (toUIMessage o m).type ≠ .tool_result := by
    rw [h]; intro hh; cases hh
  have hne3 : (toUIMessage o m).type ≠ .hil_request := by
    rw [h]; intro hh; cases hh
  by_cases hk : ((toUIMessage o m).payload.get "request_id").truthy
  · simp [mergeStep, hne1, hne2, hne3, h, ht, hk, hl]
  · simp [mergeStep, hne1, hne2, hne3, h, ht, hk]

theorem mergeStep_other (o : MapperOptions) (st : MergeState)
    (m : RawProtocolMessage)
    (h1 : (toUIMessage o m).type ≠ .tool_call)
    (h2 : (toUIMessage o m).type ≠ .tool_result)
    (h3 : (toUIMessage o m).type ≠ .hil_request)
    (h4 : ¬((toUIMessage o m).type = .unknown
      ∧ (toUIMessage o m).hilResponseText.truthy)) :
    mergeStep o st m =
      { st with entries := st.entries ++ [toUIMessage o m] } := by
  simp [mergeStep, h1, h2, h3, h4]


/-! ### Merge-pass invariant helpers -/

theorem lt_of_get?_some {α : Type} {l : List α} {i : Nat} {e : α}
    (h : l.get? i = some e) : i < l.length := by
  by_contra h'
  rw [List.get?_eq_none.mpr (Nat.le_of_not_lt h')] at h
  cases h

theorem pairP_of_id_eq (idc idr : String) (e e' : UIMessage)
    (h : e'.id = e.id) : pairP idc idr e' = pairP idc idr e := by
  simp [pairP, h]

theorem mergeToolInto_id (u e : UIMessage) :
    (mergeToolInto u e).id = e.id := rfl

theorem applyHilResponse_id (o : MapperOptions) (u e : UIMessage) :
    (applyHilResponse o u e).id = e.id := by
  unfold applyHilResponse
  dsimp only
  split_ifs
  all_goals rfl

theorem lookupKey_cons (k' : JsVal) (i : Nat)
    (mp : List (JsVal × Nat)) (k : JsVal) :
    lookupKey ((k', i) :: mp) k
      = if k' = k then some i else lookupKey mp k := rfl

theorem MInv_append (o : MapperOptions) (idc idr : String)
    (tg hg : Option (JsVal × Nat × UIMessage))
    (tabs habs : Option JsVal) (F : List UIMessage) (st : MergeState)
    (u : UIMessage) (hPu : pairP idc idr u = false)
    (hI : MInv idc idr tg hg tabs habs F st) :
    MInv idc idr tg hg tabs habs F
      { st with entries := st.entries ++ [u] } := by
  obtain ⟨h1, h2, h3, h4, h5, h6, h7⟩ := hI
  refine ⟨?_, ?_, ?_, ?_, ?_, h6, h7⟩
  · simp only [List.filter_append, List.filter_cons, hPu,
      Bool.false_eq_true, if_false, List.filter_nil, List.append_nil]
    exact h1
  · intro k i E hE
    obtain ⟨ha, hbb, hc⟩ := h2 k i E hE
    have hbb' : (st.entries ++ [u]).get? i = some E := by
      rw [List.get?_append (lt_of_get?_some hbb)]
      exact hbb
    exact ⟨ha, hbb', hc⟩
  · intro k i E hE
    obtain ⟨ha, hbb, hc⟩ := h3 k i E hE
    have hbb' : (st.entries ++ [u]).get? i = some E := by
      rw [List.get?_append (lt_of_get?_some hbb)]
      exact hbb
    exact ⟨ha, hbb', hc⟩
  · intro k i hki
    rcases h4 k i hki with hcase | ⟨e, he, hPe⟩
    · exact .inl hcase
    · have he2 : (st.entries ++ [u]).get? i = some e := by
        rw [List.get?_append (lt_of_get?_some he)]
        exact he
      exact .inr ⟨e, he2, hPe⟩
  · intro k i hki
    rcases h5 k i hki with hcase | ⟨e, he, hPe⟩
    · exact .inl hcase
    · have he2 : (st.entries ++ [u]).get? i = some e := by
        rw [List.get?_append (lt_of_get?_some he)]
        exact he
      exact .inr ⟨e, he2, hPe⟩

theorem MInv_append_reg_tool (o : MapperOptions) (idc idr : String)
    (tg hg : Option (JsVal × Nat × UIMessage))
    (tabs habs : Option JsVal) (F : List UIMessage) (st : MergeState)
    (u : UIMessage) (kc : JsVal)
    (hPu : pairP idc idr u = false)
    (hne_tg : ∀ k i E, tg = some (k, i, E) → kc ≠ k)
    (hne_tabs : ∀ k, tabs = some k → kc ≠ k)
    (hI : MInv idc idr tg hg tabs habs F st) :
    MInv idc idr tg hg tabs habs F
      { st with
        entries := st.entries ++ [u]
        toolCallMap := (kc, st.entries.length) :: st.toolCallMap } := by
  obtain ⟨h1, h2, h3, h4, h5, h6, h7⟩ := hI
  refine ⟨?_, ?_, ?_, ?_, ?_, ?_, h7⟩
  · simp only [List.filter_append, List.filter_cons, hPu,
      Bool.false_eq_true, if_false, List.filter_nil, List.append_nil]
    exact h1
  · intro k i E hE
    obtain ⟨ha, hbb, hc⟩ := h2 k i E hE
    have hbb' : (st.entries ++ [u]).get? i = some E := by
      rw [List.get?_append (lt_of_get?_some hbb)]
      exact hbb
    refine ⟨?_, hbb', hc⟩
    rw [lookupKey_cons, if_neg (hne_tg k i E hE)]
    exact ha
  · intro k i E hE
    obtain ⟨ha, hbb, hc⟩ := h3 k i E hE
    have hbb' : (st.entries ++ [u]).get? i = some E := by
      rw [List.get?_append (lt_of_get?_some hbb)]
      exact hbb
    exact ⟨ha, hbb', hc⟩
  · intro k i hki
    rw [lookupKey_cons] at hki
    by_cases hkk : kc = k
    · rw [if_pos hkk] at hki
      cases hki
      refine .inr ⟨u, ?_, hPu⟩
      exact List.get?_concat_length st.entries u
    · rw [if_neg hkk] at hki
      rcases h4 k i hki with hcase | ⟨e, he, hPe⟩
      · exact .inl hcase
      · have he2 : (st.entries ++ [u]).get? i = some e := by
          rw [List.get?_append (lt_of_get?_some he)]
          exact he
        exact .inr ⟨e, he2, hPe⟩
  · intro k i hki
    rcases h5 k i hki with hcase | ⟨e, he, hPe⟩
    · exact .inl hcase
    · have he2 : (st.entries ++ [u]).get? i = some e := by
        rw [List.get?_append (lt_of_get?_some he)]
        exact he
      exact .inr ⟨e, he2, hPe⟩
  · intro k hk'
    rw [lookupKey_cons, if_neg (hne_tabs k hk')]
    exact h6 k hk'

theorem MInv_append_reg_hil (o : MapperOptions) (idc idr : String)
    (tg hg : Option (JsVal × Nat × UIMessage))
    (tabs habs : Option JsVal) (F : List UIMessage) (st : MergeState)
    (u : UIMessage) (kh : JsVal)
    (hPu : pairP idc idr u = false)
    (hne_hg : ∀ k i E, hg = some (k, i, E) → kh ≠ k)
    (hne_habs : ∀ k, habs = some k → kh ≠ k)
    (hI : MInv idc idr tg hg tabs habs F st) :
    MInv idc idr tg hg tabs habs F
      { st with
        entries := st.entries ++ [u]
        hilRequestMap := (kh, st.entries.length) :: st.hilRequestMap } := by
  obtain ⟨h1, h2, h3, h4, h5, h6, h7⟩ := hI
  refine ⟨?_, ?_, ?_, ?_, ?_, h6, ?_⟩
  · simp only [List.filter_append, List.filter_cons, hPu,
      Bool.false_eq_true, if_false, List.filter_nil, List.append_nil]
    exact h1
  · intro k i E hE
    obtain ⟨ha, hbb, hc⟩ := h2 k i E hE
    have hbb' : (st.entries ++ [u]).get? i = some E := by
      rw [List.get?_append (lt_of_get?_some hbb)]
      exact hbb
    exact ⟨ha, hbb', hc⟩
  · intro k i E hE
    obtain ⟨ha, hbb, hc⟩ := h3 k i E hE
    have hbb' : (st.entries ++ [u]).get? i = some E := by
      rw [List.get?_append (lt_of_get?_some hbb)]
      exact hbb
    refine ⟨?_, hbb', hc⟩
    rw [lookupKey_cons, if_neg (hne_hg k i E hE)]
    exact ha
  · intro k i hki
    rcases h4 k i hki with hcase | ⟨e, he, hPe⟩
    · exact .inl hcase
    · have he2 : (st.entries ++ [u]).get? i = some e := by
        rw [List.get?_append (lt_of_get?_some he)]
        exact he
      exact .inr ⟨e, he2, hPe⟩
  · intro k i hki
    rw [lookupKey_cons] at hki
    by_cases hkk : kh = k
    · rw [if_pos hkk] at hki
      cases hki
      refine .inr ⟨u, ?_, hPu⟩
      exact List.get?_concat_length st.entries u
    · rw [if_neg hkk] at hki
      rcases h5 k i hki with hcase | ⟨e, he, hPe⟩
      · exact .inl hcase
      · have he2 : (st.entries ++ [u]).get? i = some e := by
          rw [List.get?_append (lt_of_get?_some he)]
          exact he
        exact .inr ⟨e, he2, hPe⟩
  · intro k hk'
    rw [lookupKey_cons, if_neg (hne_habs k hk')]
    exact h7 k hk'

theorem MInv_update_safe (o : MapperOptions) (idc idr : String)
    (tg hg : Option (JsVal × Nat × UIMessage))
    (tabs habs : Option JsVal) (F : List UIMessage) (st : MergeState)
    (i : Nat) (f : UIMessage → UIMessage)
    (hid : ∀ e, (f e).id = e.id)
    (hsafe : ∃ e, st.entries.get? i = some e
      ∧ pairP idc idr e = false)
    (hI : MInv idc idr tg hg tabs habs F st) :
    MInv idc idr tg hg tabs habs F
      { st with entries := updateAt st.entries i f } := by
  obtain ⟨e, hget, hPe⟩ := hsafe
  obtain ⟨h1, h2, h3, h4, h5, h6, h7⟩ := hI
  have hPfe : pairP idc idr (f e) = false := by
    rw [pairP_of_id_eq idc idr e (f e) (hid e)]
    exact hPe
  have hne_of_true : ∀ (j : Nat) (E : UIMessage),
      st.entries.get? j = some E → pairP idc idr E = true → j ≠ i := by
    intro j E hj hPE hji
    subst hji
    rw [hget] at hj
    cases hj
    rw [hPE] at hPe
    cases hPe
  refine ⟨?_, ?_, ?_, ?_, ?_, h6, h7⟩
  · rw [filter_updateAt_of_false _ _ _ _ e hget hPe hPfe]
    exact h1
  · intro k j E hE
    obtain ⟨ha, hbb, hc⟩ := h2 k j E hE
    have hbb' : (updateAt st.entries i f).get? j = some E := by
      rw [get?_updateAt_ne _ _ _ _ (hne_of_true j E hbb hc)]
      exact hbb
    exact ⟨ha, hbb', hc⟩
  · intro k j E hE
    obtain ⟨ha, hbb, hc⟩ := h3 k j E hE
    have hbb' : (updateAt st.entries i f).get? j = some E := by
      rw [get?_updateAt_ne _ _ _ _ (hne_of_true j E hbb hc)]
      exact hbb
    exact ⟨ha, hbb', hc⟩
  · intro k j hkj
    rcases h4 k j hkj with hcase | ⟨e', he', hPe'⟩
    · exact .inl hcase
    · by_cases hji : j = i
      · subst hji
        rw [hget] at he'
        cases he'
        exact .inr ⟨f e, get?_updateAt_self _ _ _ e hget, hPfe⟩
      · have he2 : (updateAt st.entries i f).get? j = some e' := by
          rw [get?_updateAt_ne _ _ _ _ hji]
          exact he'
        exact .inr ⟨e', he2, hPe'⟩
  · intro k j hkj
    rcases h5 k j hkj with hcase | ⟨e', he', hPe'⟩
    · exact .inl hcase
    · by_cases hji : j = i
      · subst hji
        rw [hget] at he'
        cases he'
        exact .inr ⟨f e, get?_updateAt_self _ _ _ e hget, hPfe⟩
      · have he2 : (updateAt st.entries i f).get? j = some e' := by
          rw [get?_updateAt_ne _ _ _ _ hji]
          exact he'
        exact .inr ⟨e', he2, hPe'⟩


/-- One benign message preserves the merge-pass invariant. -/
theorem mergeStep_preserve (o : MapperOptions) (idc idr : String)
    (tk hk : Option JsVal)
    (tg hg : Option (JsVal × Nat × UIMessage))
    (tabs habs : Option JsVal) (F : List UIMessage)
    (st : MergeState) (m : RawProtocolMessage)
    (hb : benign o idc idr tk hk m)
    (htg : ∀ k i E, tg = some (k, i, E) → tk = some k)
    (htabs : ∀ k, tabs = some k → tk = some k)
    (hhg : ∀ k i E, hg = some (k, i, E) → hk = some k)
    (hhabs : ∀ k, habs = some k → hk = some k)
    (hI : MInv idc idr tg hg tabs habs F st) :
    MInv idc idr tg hg tabs habs F (mergeStep o st m) := by
  obtain ⟨hbid1, hbid2, hbtool, hbhil⟩ := hb
  have hPui : pairP idc idr (toUIMessage o m) = false := by
    simp [pairP, uiOf_id, hbid1, hbid2]
  by_cases hA : (toUIMessage o m).type = .tool_call
  · by_cases hkc : ((toUIMessage o m).payload.get "tool_call_id").truthy
    · rw [mergeStep_toolCall_reg o st m hA hkc]
      have hne : ∀ k, tk = some k →
          (toUIMessage o m).payload.get "tool_call_id" ≠ k := by
        intro k hkk heq
        exact hbtool k hkk ⟨.inl hA, by rw [← uiOf_payload o m]; exact heq⟩
      exact MInv_append_reg_tool o idc idr tg hg tabs habs F st _ _ hPui
        (fun k i E hE => hne k (htg k i E hE))
        (fun k hkk => hne k (htabs k hkk)) hI
    · rw [mergeStep_toolCall_noreg o st m hA (by simpa using hkc)]
      exact MInv_append o idc idr tg hg tabs habs F st _ hPui hI
  · by_cases hB : (toUIMessage o m).type = .tool_result
    · by_cases hkc : ((toUIMessage o m).payload.get "tool_call_id").truthy
      · rcases hl : lookupKey st.toolCallMap
            ((toUIMessage o m).payload.get "tool_call_id") with _ | i
        · rw [mergeStep_toolResult_missMap o st m hB hl]
          exact MInv_append o idc idr tg hg tabs habs F st _ hPui hI
        · rw [mergeStep_toolResult_hit o st m i hB hkc hl]
          apply MInv_update_safe o idc idr tg hg tabs habs F st i _
            (fun e => mergeToolInto_id _ e) ?_ hI
          rcases hI.2.2.2.1 _ i hl with ⟨E, hEeq⟩ | hsafe
          · exfalso
            have hkk := htg _ i E hEeq
            exact hbtool _ hkk ⟨.inr hB, by rw [← uiOf_payload o m]⟩
          · exact hsafe
      · rw [mergeStep_toolResult_missKey o st m hB (by simpa using hkc)]
        exact MInv_append o idc idr tg hg tabs habs F st _ hPui hI
    · by_cases hC : (toUIMessage o m).type = .hil_request
      · by_cases hkh : (toUIMessage o m).hilRequestId.truthy
        · rw [mergeStep_hilReq_reg o st m hC hkh]
          have hne : ∀ k, hk = some k →
              (toUIMessage o m).hilRequestId ≠ k := by
            intro k hkk heq
            exact (hbhil k hkk).1 ⟨hC, heq, by rw [← heq]; exact hkh⟩
          exact MInv_append_reg_hil o idc idr tg hg tabs habs F st _ _
            hPui (fun k i E hE => hne k (hhg k i E hE))
            (fun k hkk => hne k (hhabs k hkk)) hI
        · rw [mergeStep_hilReq_noreg o st m hC (by simpa using hkh)]
          exact MInv_append o idc idr tg hg tabs habs F st _ hPui hI
      · by_cases hD : (toUIMessage o m).type = .unknown
            ∧ (toUIMessage o m).hilResponseText.truthy
        · by_cases hrk : ((toUIMessage o m).payload.get
              "request_id").truthy
          · rcases hl : lookupKey st.hilRequestMap
                ((toUIMessage o m).payload.get "request_id") with _ | i
            · rw [mergeStep_hilResp_dropMap o st m hD.1 hD.2 hl]
              exact hI
            · rw [mergeStep_hilResp_hit o st m i hD.1 hD.2 hrk hl]
              apply MInv_update_safe o idc idr tg hg tabs habs F st i _
                (fun e => applyHilResponse_id o _ e) ?_ hI
              rcases hI.2.2.2.2.1 _ i hl with ⟨E, hEeq⟩ | hsafe
              · exfalso
                have hkk := hhg _ i E hEeq
                exact (hbhil _ hkk).2
                  ⟨hD.1, hD.2, by rw [← uiOf_payload o m]⟩
              · exact hsafe
          · rw [mergeStep_hilResp_dropKey o st m hD.1 hD.2
              (by simpa using hrk)]
            exact hI
        · rw [mergeStep_other o st m hA hB hC hD]
          exact MInv_append o idc idr tg hg tabs habs F st _ hPui hI

/-- A fold over benign messages preserves the merge-pass invariant. -/
theorem mergeFold_preserve (o : MapperOptions) (idc idr : String)
    (tk hk : Option JsVal)
    (tg hg : Option (JsVal × Nat × UIMessage))
    (tabs habs : Option JsVal) (F : List UIMessage)
    (msgs : List RawProtocolMessage)
    (hbs : ∀ m ∈ msgs, benign o idc idr tk hk m)
    (htg : ∀ k i E, tg = some (k, i, E) → tk = some k)
    (htabs : ∀ k, tabs = some k → tk = some k)
    (hhg : ∀ k i E, hg = some (k, i, E) → hk = some k)
    (hhabs : ∀ k, habs = some k → hk = some k)
    (st : MergeState) (hI : MInv idc idr tg hg tabs habs F st) :
    MInv idc idr tg hg tabs habs F (msgs.foldl (mergeStep o) st) := by
  induction msgs generalizing st with
  | nil => exact hI
  | cons m rest ih =>
    exact ih (fun x hx => hbs x (List.mem_cons_of_mem m hx)) _
      (mergeStep_preserve o idc idr tk hk tg hg tabs habs F st m
        (hbs m (List.mem_cons_self m rest)) htg htabs hhg hhabs hI)


/-- Processing the protected `tool_call` moves the invariant from the
"key absent" phase to the "binding protected" phase. -/
theorem MInv_call_step (o : MapperOptions) (idc idr : String)
    (kv : JsVal) (habs : Option JsVal) (st : MergeState)
    (call : RawProtocolMessage)
    (hty : (toUIMessage o call).type = .tool_call)
    (hkey : call.payload.get "tool_call_id" = kv)
    (hkv : kv.truthy = true)
    (hid : call.id = idc)
    (hP : pairP idc idr (toUIMessage o call) = true)
    (hI : MInv idc idr none none (some kv) habs [] st) :
    MInv idc idr
      (some (kv, st.entries.length, toUIMessage o call)) none none habs
      [toUIMessage o call] (mergeStep o st call) := by
  obtain ⟨h1, _, h3, h4, h5, h6, h7⟩ := hI
  have hkc : (toUIMessage o call).payload.get "tool_call_id" = kv := by
    rw [uiOf_payload o call]
    exact hkey
  rw [mergeStep_toolCall_reg o st call hty (by rw [hkc]; exact hkv)]
  rw [hkc]
  refine ⟨?_, ?_, ?_, ?_, ?_, fun k hkk => Option.noConfusion hkk, h7⟩
  · simp only [List.filter_append, h1, List.filter_cons, hP, if_pos,
      List.filter_nil, List.nil_append]
  · intro k i E hE
    cases hE
    refine ⟨?_, List.get?_concat_length st.entries _, hP⟩
    rw [lookupKey_cons, if_pos rfl]
  · intro k i E hE
    cases hE
  · intro k i hki
    rw [lookupKey_cons] at hki
    by_cases hkk : kv = k
    · subst hkk
      rw [if_pos rfl] at hki
      cases hki
      exact .inl ⟨toUIMessage o call, rfl⟩
    · rw [if_neg hkk] at hki
      rcases h4 k i hki with ⟨E, hEeq⟩ | ⟨e, he, hPe⟩
      · cases hEeq
      · have he2 : (st.entries ++ [toUIMessage o call]).get? i
            = some e := by
          rw [List.get?_append (lt_of_get?_some he)]
          exact he
        exact .inr ⟨e, he2, hPe⟩
  · intro k i hki
    rcases h5 k i hki with ⟨E, hEeq⟩ | ⟨e, he, hPe⟩
    · cases hEeq
    · have he2 : (st.entries ++ [toUIMessage o call]).get? i
          = some e := by
        rw [List.get?_append (lt_of_get?_some he)]
        exact he
      exact .inr ⟨e, he2, hPe⟩

/-- Processing the matching `tool_result` merges it into the protected
entry in place. -/
theorem MInv_result_step (o : MapperOptions) (idc idr : String)
    (kv : JsVal) (ic : Nat) (E : UIMessage) (habs : Option JsVal)
    (st : MergeState) (res : RawProtocolMessage)
    (hty : (toUIMessage o res).type = .tool_result)
    (hkey : res.payload.get "tool_call_id" = kv)
    (hkv : kv.truthy = true)
    (hI : MInv idc idr (some (kv, ic, E)) none none habs [E] st) :
    MInv idc idr
      (some (kv, ic, mergeToolInto (toUIMessage o res) E)) none none habs
      [mergeToolInto (toUIMessage o res) E] (mergeStep o st res) := by
  obtain ⟨h1, h2, h3, h4, h5, h6, h7⟩ := hI
  obtain ⟨hlk, hget, hPE⟩ := h2 kv ic E rfl
  have hkc : (toUIMessage o res).payload.get "tool_call_id" = kv := by
    rw [uiOf_payload o res]
    exact hkey
  have hPfE : pairP idc idr (mergeToolInto (toUIMessage o res) E)
      = true := by
    rw [pairP_of_id_eq idc idr E _ (mergeToolInto_id _ E)]
    exact hPE
  rw [mergeStep_toolResult_hit o st res ic hty
    (by rw [hkc]; exact hkv) (by rw [hkc]; exact hlk)]
  have hne_ic : ∀ (j : Nat) (e : UIMessage),
      st.entries.get? j = some e → pairP idc idr e = false → j ≠ ic := by
    intro j e hj hPe hji
    subst hji
    rw [hget] at hj
    cases hj
    rw [hPE] at hPe
    cases hPe
  refine ⟨?_, ?_, ?_, ?_, ?_, h6, h7⟩
  · exact filter_updateAt_singleton _ _ ic _ E h1 hget hPfE
  · intro k i E' hE'
    cases hE'
    exact ⟨hlk, get?_updateAt_self _ _ _ E hget, hPfE⟩
  · intro k i E' hE'
    cases hE'
  · intro k i hki
    by_cases hkk : k = kv
    · subst hkk
      rw [hki] at hlk
      cases hlk
      exact .inl ⟨mergeToolInto (toUIMessage o res) E, rfl⟩
    · rcases h4 k i hki with ⟨E', hEeq⟩ | ⟨e, he, hPe⟩
      · exfalso
        cases hEeq
        exact hkk rfl
      · have he2 : (updateAt st.entries ic
            (mergeToolInto (toUIMessage o res))).get? i = some e := by
          rw [get?_updateAt_ne _ _ _ _ (hne_ic i e he hPe)]
          exact he
        exact .inr ⟨e, he2, hPe⟩
  · intro k i hki
    rcases h5 k i hki with ⟨E', hEeq⟩ | ⟨e, he, hPe⟩
    · cases hEeq
    · have he2 : (updateAt st.entries ic
          (mergeToolInto (toUIMessage o res))).get? i = some e := by
        rw [get?_updateAt_ne _ _ _ _ (hne_ic i e he hPe)]
        exact he
      exact .inr ⟨e, he2, hPe⟩

/-- Processing the protected `hil_request` moves the invariant from the
"request id absent" phase to the "binding protected" phase. -/
theorem MInv_request_step (o : MapperOptions) (idc idr : String)
    (kv : JsVal) (tabs : Option JsVal) (st : MergeState)
    (req : RawProtocolMessage)
    (hty : (toUIMessage o req).type = .hil_request)
    (hkey : (toUIMessage o req).hilRequestId = kv)
    (hkv : kv.truthy = true)
    (hP : pairP idc idr (toUIMessage o req) = true)
    (hI : MInv idc idr none none tabs (some kv) [] st) :
    MInv idc idr none
      (some (kv, st.entries.length, toUIMessage o req)) tabs none
      [toUIMessage o req] (mergeStep o st req) := by
  obtain ⟨h1, h2, _, h4, h5, h6, h7⟩ := hI
  rw [mergeStep_hilReq_reg o st req hty (by rw [hkey]; exact hkv)]
  rw [hkey]
  refine ⟨?_, ?_, ?_, ?_, ?_, h6, fun k hkk => Option.noConfusion hkk⟩
  · simp only [List.filter_append, h1, List.filter_cons, hP, if_pos,
      List.filter_nil, List.nil_append]
  · intro k i E hE
    cases hE
  · intro k i E hE
    cases hE
    refine ⟨?_, List.get?_concat_length st.entries _, hP⟩
    rw [lookupKey_cons, if_pos rfl]
  · intro k i hki
    rcases h4 k i hki with ⟨E, hEeq⟩ | ⟨e, he, hPe⟩
    · cases hEeq
    · have he2 : (st.entries ++ [toUIMessage o req]).get? i
          = some e := by
        rw [List.get?_append (lt_of_get?_some he)]
        exact he
      exact .inr ⟨e, he2, hPe⟩
  · intro k i hki
    rw [lookupKey_cons] at hki
    by_cases hkk : kv = k
    · subst hkk
      rw [if_pos rfl] at hki
      cases hki
      exact .inl ⟨toUIMessage o req, rfl⟩
    · rw [if_neg hkk] at hki
      rcases h5 k i hki with ⟨E, hEeq⟩ | ⟨e, he, hPe⟩
      · cases hEeq
      · have he2 : (st.entries ++ [toUIMessage o req]).get? i
            = some e := by
          rw [List.get?_append (lt_of_get?_some he)]
          exact he
        exact .inr ⟨e, he2, hPe⟩

/-- Processing the matching human-intervention response mutates the
protected request entry in place and appends nothing. -/
theorem MInv_response_step (o : MapperOptions) (idc idr : String)
    (kv : JsVal) (ic : Nat) (E : UIMessage) (tabs : Option JsVal)
    (st : MergeState) (resp : RawProtocolMessage)
    (hty : (toUIMessage o resp).type = .unknown)
    (htx : (toUIMessage o resp).hilResponseText.truthy = true)
    (hkey : resp.payload.get "request_id" = kv)
    (hkv : kv.truthy = true)
    (hI : MInv idc idr none (some (kv, ic, E)) tabs none [E] st) :
    MInv idc idr none
      (some (kv, ic, applyHilResponse o (toUIMessage o resp) E)) tabs
      none [applyHilResponse o (toUIMessage o resp) E]
      (mergeStep o st resp) := by
  obtain ⟨h1, h2, h3, h4, h5, h6, h7⟩ := hI
  obtain ⟨hlk, hget, hPE⟩ := h3 kv ic E rfl
  have hkc : (toUIMessage o resp).payload.get "request_id" = kv := by
    rw [uiOf_payload o resp]
    exact hkey
  have hPfE : pairP idc idr (applyHilResponse o (toUIMessage o resp) E)
      = true := by
    rw [pairP_of_id_eq idc idr E _ (applyHilResponse_id o _ E)]
    exact hPE
  rw [mergeStep_hilResp_hit o st resp ic hty htx
    (by rw [hkc]; exact hkv) (by rw [hkc]; exact hlk)]
  have hne_ic : ∀ (j : Nat) (e : UIMessage),
      st.entries.get? j = some e → pairP idc idr e = false → j ≠ ic := by
    intro j e hj hPe hji
    subst hji
    rw [hget] at hj
    cases hj
    rw [hPE] at hPe
    cases hPe
  refine ⟨?_, ?_, ?_, ?_, ?_, h6, h7⟩
  · exact filter_updateAt_singleton _ _ ic _ E h1 hget hPfE
  · intro k i E' hE'
    cases hE'
  · intro k i E' hE'
    cases hE'
    exact ⟨hlk, get?_updateAt_self _ _ _ E hget, hPfE⟩
  · intro k i hki
    rcases h4 k i hki with ⟨E', hEeq⟩ | ⟨e, he, hPe⟩
    · cases hEeq
    · have he2 : (updateAt st.entries ic
          (applyHilResponse o (toUIMessage o resp))).get? i = some e := by
        rw [get?_updateAt_ne _ _ _ _ (hne_ic i e he hPe)]
        exact he
      exact .inr ⟨e, he2, hPe⟩
  · intro k i hki
    by_cases hkk : k = kv
    · subst hkk
      rw [hki] at hlk
      cases hlk
      exact .inl ⟨applyHilResponse o (toUIMessage o resp) E, rfl⟩
    · rcases h5 k i hki with ⟨E', hEeq⟩ | ⟨e, he, hPe⟩
      · exfalso
        cases hEeq
        exact hkk rfl
      · have he2 : (updateAt st.entries ic
            (applyHilResponse o (toUIMessage o resp))).get? i
            = some e := by
          rw [get?_updateAt_ne _ _ _ _ (hne_ic i e he hPe)]
          exact he
        exact .inr ⟨e, he2, hPe⟩


/-- The call-id map only ever grows by keys registered by `tool_call`
messages. -/
theorem mergeStep_toolMap (o : MapperOptions) (st : MergeState)
    (m : RawProtocolMessage) :
    (mergeStep o st m).toolCallMap = st.toolCallMap
    ∨ ∃ kc, (toUIMessage o m).type = .tool_call
        ∧ (toUIMessage o m).payload.get "tool_call_id" = kc
        ∧ kc.truthy = true
        ∧ (mergeStep o st m).toolCallMap
          = (kc, st.entries.length) :: st.toolCallMap := by
  by_cases hA : (toUIMessage o m).type = .tool_call
  · by_cases hkc : ((toUIMessage o m).payload.get "tool_call_id").truthy
    · refine .inr ⟨_, hA, rfl, hkc, ?_⟩
      rw [mergeStep_toolCall_reg o st m hA hkc]
    · rw [mergeStep_toolCall_noreg o st m hA (by simpa using hkc)]
      exact .inl rfl
  · by_cases hB : (toUIMessage o m).type = .tool_result
    · by_cases hkc : ((toUIMessage o m).payload.get "tool_call_id").truthy
      · rcases hl : lookupKey st.toolCallMap
            ((toUIMessage o m).payload.get "tool_call_id") with _ | i
        · rw [mergeStep_toolResult_missMap o st m hB hl]
          exact .inl rfl
        · rw [mergeStep_toolResult_hit o st m i hB hkc hl]
          exact .inl rfl
      · rw [mergeStep_toolResult_missKey o st m hB (by simpa using hkc)]
        exact .inl rfl
    · by_cases hC : (toUIMessage o m).type = .hil_request
      · by_cases hkh : (toUIMessage o m).hilRequestId.truthy
        · rw [mergeStep_hilReq_reg o st m hC hkh]
          exact .inl rfl
        · rw [mergeStep_hilReq_noreg o st m hC (by simpa using hkh)]
          exact .inl rfl
      · by_cases hD : (toUIMessage o m).type = .unknown
            ∧ (toUIMessage o m).hilResponseText.truthy
        · by_cases hrk : ((toUIMessage o m).payload.get
              "request_id").truthy
          · rcases hl : lookupKey st.hilRequestMap
                ((toUIMessage o m).payload.get "request_id") with _ | i
            · rw [mergeStep_hilResp_dropMap o st m hD.1 hD.2 hl]
              exact .inl rfl
            · rw [mergeStep_hilResp_hit o st m i hD.1 hD.2 hrk hl]
              exact .inl rfl
          · rw [mergeStep_hilResp_dropKey o st m hD.1 hD.2
              (by simpa using hrk)]
            exact .inl rfl
        · rw [mergeStep_other o st m hA hB hC hD]
          exact .inl rfl

/-- The request-id map only ever grows by keys registered by
`hil_request` messages. -/
theorem mergeStep_hilMap (o : MapperOptions) (st : MergeState)
    (m : RawProtocolMessage) :
    (mergeStep o st m).hilRequestMap = st.hilRequestMap
    ∨ ∃ kh, (toUIMessage o m).type = .hil_request
        ∧ (toUIMessage o m).hilRequestId = kh
        ∧ kh.truthy = true
        ∧ (mergeStep o st m).hilRequestMap
          = (kh, st.entries.length) :: st.hilRequestMap := by
  by_cases hA : (toUIMessage o m).type = .tool_call
  · by_cases hkc : ((toUIMessage o m).payload.get "tool_call_id").truthy
    · rw [mergeStep_toolCall_reg o st m hA hkc]
      exact .inl rfl
    · rw [mergeStep_toolCall_noreg o st m hA (by simpa using hkc)]
      exact .inl rfl
  · by_cases hB : (toUIMessage o m).type = .tool_result
    · by_cases hkc : ((toUIMessage o m).payload.get "tool_call_id").truthy
      · rcases hl : lookupKey st.toolCallMap
            ((toUIMessage o m).payload.get "tool_call_id") with _ | i
        · rw [mergeStep_toolResult_missMap o st m hB hl]
          exact .inl rfl
        · rw [mergeStep_toolResult_hit o st m i hB hkc hl]
          exact .inl rfl
      · rw [mergeStep_toolResult_missKey o st m hB (by simpa using hkc)]
        exact .inl rfl
    · by_cases hC : (toUIMessage o m).type = .hil_request
      · by_cases hkh : (toUIMessage o m).hilRequestId.truthy
        · refine .inr ⟨_, hC, rfl, hkh, ?_⟩
          rw [mergeStep_hilReq_reg o st m hC hkh]
        · rw [mergeStep_hilReq_noreg o st m hC (by simpa using hkh)]
          exact .inl rfl
      · by_cases hD : (toUIMessage o m).type = .unknown
            ∧ (toUIMessage o m).hilResponseText.truthy
        · by_cases hrk : ((toUIMessage o m).payload.get
              "request_id").truthy
          · rcases hl : lookupKey st.hilRequestMap
                ((toUIMessage o m).payload.get "request_id") with _ | i
            · rw [mergeStep_hilResp_dropMap o st m hD.1 hD.2 hl]
              exact .inl rfl
            · rw [mergeStep_hilResp_hit o st m i hD.1 hD.2 hrk hl]
              exact .inl rfl
          · rw [mergeStep_hilResp_dropKey o st m hD.1 hD.2
              (by simpa using hrk)]
            exact .inl rfl
        · rw [mergeStep_other o st m hA hB hC hD]
          exact .inl rfl

/-- A fold over messages that never register `k` as a call id leaves `k`
absent from the call-id map. -/
theorem mergeFold_toolMap_none (o : MapperOptions) (k : JsVal)
    (msgs : List RawProtocolMessage)
    (hno : ∀ m ∈ msgs, ¬ registersToolKey o k m) (st : MergeState)
    (h0 : lookupKey st.toolCallMap k = none) :
    lookupKey (msgs.foldl (mergeStep o) st).toolCallMap k = none := by
  induction msgs generalizing st with
  | nil => exact h0
  | cons m rest ih =>
    refine ih (fun x hx => hno x (List.mem_cons_of_mem m hx)) _ ?_
    rcases mergeStep_toolMap o st m with heq | ⟨kc, hty, hkc, htr, heq⟩
    · rw [heq]
      exact h0
    · rw [heq, lookupKey_cons]
      have hne : kc ≠ k := by
        intro hkk
        subst hkk
        exact hno m (List.mem_cons_self m rest)
          ⟨hty, by rw [← uiOf_payload o m]; exact hkc, htr⟩
      rw [if_neg hne]
      exact h0

/-- A fold over messages that never register `k` as a request id leaves
`k` absent from the request-id map. -/
theorem mergeFold_hilMap_none (o : MapperOptions) (k : JsVal)
    (msgs : List RawProtocolMessage)
    (hno : ∀ m ∈ msgs, ¬ registersHilKey o k m) (st : MergeState)
    (h0 : lookupKey st.hilRequestMap k = none) :
    lookupKey (msgs.foldl (mergeStep o) st).hilRequestMap k = none := by
  induction msgs generalizing st with
  | nil => exact h0
  | cons m rest ih =>
    refine ih (fun x hx => hno x (List.mem_cons_of_mem m hx)) _ ?_
    rcases mergeStep_hilMap o st m with heq | ⟨kh, hty, hkh, htr, heq⟩
    · rw [heq]
      exact h0
    · rw [heq, lookupKey_cons]
      have hne : kh ≠ k := by
        intro hkk
        subst hkk
        exact hno m (List.mem_cons_self m rest) ⟨hty, hkh, htr⟩
      rw [if_neg hne]
      exact h0

/-- The spread merge pins the call entry's `arguments` field. -/
theorem mergedToolPayload_args (callP resP : Payload) :
    (mergedToolPayload callP resP).get "arguments"
      = callP.get "arguments" := by
  simp [mergedToolPayload, Payload.get, List.find?]


theorem orJs_of_truthy (a b : JsVal) (h : a.truthy = true) :
    a.orJs b = a := by
  simp [JsVal.orJs, h]

theorem applyHilResponse_accept (o : MapperOptions) (u e : UIMessage)
    (h : u.payload.get "action" = .str "accept") :
    applyHilResponse o u e = { e with
      hilStatus := some .accepted
      hilResponseText := .str o.strings.hil.confirmed } := by
  simp [applyHilResponse, h]

/-- The trivial initial invariant of the merge pass. -/
theorem MInv_init (idc idr : String) (tabs habs : Option JsVal) :
    MInv idc idr none none tabs habs [] initMergeState :=
  ⟨rfl, fun _ _ _ h => Option.noConfusion h,
    fun _ _ _ h => Option.noConfusion h,
    fun _ _ h => Option.noConfusion h,
    fun _ _ h => Option.noConfusion h,
    fun _ _ => rfl, fun _ _ => rfl⟩

/-- C1: in the merge pass, a `tool_call` with truthy `tool_call_id` `kv`
followed later by a `tool_result` with the same id — no other message
touching `kv` or carrying the pair's message ids — yields exactly one
derived entry for the pair: the call entry upgraded in place to type
`tool_result`, carrying the result message's success/result/error fields
and keeping the call's `arguments` payload field; and a `tool_result`
with no earlier matching `tool_call` is appended as its own entry. -/
theorem C1_toolResult_merge (o : MapperOptions) :
    (∀ (pre mid post : List RawProtocolMessage)
      (call res : RawProtocolMessage) (kv : JsVal),
      kv.truthy = true →
      call.message_type = "tool_call" →
      res.message_type = "tool_result" →
      call.payload.get "tool_call_id" = kv →
      res.payload.get "tool_call_id" = kv →
      (∀ m ∈ pre ++ mid ++ post,
        benign o call.id res.id (some kv) none m) →
      (mergeMessages o
          (pre ++ [call] ++ mid ++ [res] ++ post)).filter
          (pairP call.id res.id)
        = [mergeToolInto (toUIMessage o res) (toUIMessage o call)]
      ∧ (mergeToolInto (toUIMessage o res) (toUIMessage o call)).type
          = .tool_result
      ∧ (mergeToolInto (toUIMessage o res) (toUIMessage o call)).id
          = call.id
      ∧ (mergeToolInto (toUIMessage o res) (toUIMessage o call)).success
          = (toUIMessage o res).success
      ∧ (mergeToolInto (toUIMessage o res) (toUIMessage o call)).result
          = (toUIMessage o res).result
      ∧ (mergeToolInto (toUIMessage o res) (toUIMessage o call)).error
          = (toUIMessage o res).error
      ∧ (mergeToolInto (toUIMessage o res)
            (toUIMessage o call)).payload.get "arguments"
          = call.payload.get "arguments")
    ∧ (∀ (msgs : List RawProtocolMessage) (res : RawProtocolMessage),
        res.message_type = "tool_result" →
        (∀ m ∈ msgs, ¬ registersToolKey o
          (res.payload.get "tool_call_id") m) →
        mergeMessages o (msgs ++ [res])
          = mergeMessages o msgs ++ [toUIMessage o res]) := by
  constructor
  · intro pre mid post call res kv hkv hcmt hrmt hckey hrkey hothers
    have hcty : (toUIMessage o call).type = .tool_call := by
      rw [uiOf_tool_call o call hcmt]
    have hrty : (toUIMessage o res).type = .tool_result := by
      rw [uiOf_tool_result o res hrmt]
    have hPc : pairP call.id res.id (toUIMessage o call) = true := by
      simp [pairP, uiOf_id]
    have hpre : ∀ m ∈ pre, benign o call.id res.id (some kv) none m :=
      fun m hm => hothers m (by simp [hm])
    have hmid : ∀ m ∈ mid, benign o call.id res.id (some kv) none m :=
      fun m hm => hothers m (by simp [hm])
    have hpost : ∀ m ∈ post, benign o call.id res.id (some kv) none m :=
      fun m hm => hothers m (by simp [hm])
    have I1 := mergeFold_preserve o call.id res.id (some kv) none
      none none (some kv) none [] pre hpre
      (fun _ _ _ h => Option.noConfusion h) (fun k h => h)
      (fun _ _ _ h => Option.noConfusion h)
      (fun _ h => Option.noConfusion h)
      initMergeState (MInv_init call.id res.id (some kv) none)
    have I2 := MInv_call_step o call.id res.id kv none
      (pre.foldl (mergeStep o) initMergeState) call hcty hckey hkv rfl
      hPc I1
    have I3 := mergeFold_preserve o call.id res.id (some kv) none
      (some (kv, (pre.foldl (mergeStep o) initMergeState).entries.length,
        toUIMessage o call)) none none none [toUIMessage o call] mid
      hmid (fun k i E h => by cases h; rfl)
      (fun _ h => Option.noConfusion h)
      (fun _ _ _ h => Option.noConfusion h)
      (fun _ h => Option.noConfusion h) _ I2
    have I4 := MInv_result_step o call.id res.id kv
      (pre.foldl (mergeStep o) initMergeState).entries.length
      (toUIMessage o call) none
      (mid.foldl (mergeStep o)
        (mergeStep o (pre.foldl (mergeStep o) initMergeState) call))
      res hrty hrkey hkv I3
    have I5 := mergeFold_preserve o call.id res.id (some kv) none
      (some (kv, (pre.foldl (mergeStep o) initMergeState).entries.length,
        mergeToolInto (toUIMessage o res) (toUIMessage o call))) none
      none none
      [mergeToolInto (toUIMessage o res) (toUIMessage o call)] post
      hpost (fun k i E h => by cases h; rfl)
      (fun _ h => Option.noConfusion h)
      (fun _ _ _ h => Option.noConfusion h)
      (fun _ h => Option.noConfusion h) _ I4
    refine ⟨?_, rfl, by rw [mergeToolInto_id, uiOf_id], rfl, rfl, rfl,
      ?_⟩
    · have hfold : mergeMessages o
          (pre ++ [call] ++ mid ++ [res] ++ post)
          = (post.foldl (mergeStep o)
              (mergeStep o
                (mid.foldl (mergeStep o)
                  (mergeStep o (pre.foldl (mergeStep o) initMergeState)
                    call))
                res)).entries := by
        simp only [mergeMessages, List.foldl_append, List.foldl_cons,
          List.foldl_nil]
      rw [hfold]
      exact I5.1
    · show (mergedToolPayload (toUIMessage o call).payload
          (toUIMessage o res).payload).get "arguments"
        = call.payload.get "arguments"
      rw [mergedToolPayload_args, uiOf_payload]
  · intro msgs res hrmt hno
    have hrty : (toUIMessage o res).type = .tool_result := by
      rw [uiOf_tool_result o res hrmt]
    have hfold : mergeMessages o (msgs ++ [res])
        = (mergeStep o (msgs.foldl (mergeStep o) initMergeState)
            res).entries := by
      simp only [mergeMessages, List.foldl_append, List.foldl_cons,
        List.foldl_nil]
    rw [hfold]
    by_cases hkc : ((toUIMessage o res).payload.get
        "tool_call_id").truthy
    · have hnone : lookupKey
          (msgs.foldl (mergeStep o) initMergeState).toolCallMap
          ((toUIMessage o res).payload.get "tool_call_id") = none := by
        rw [uiOf_payload o res]
        exact mergeFold_toolMap_none o _ msgs hno initMergeState rfl
      rw [mergeStep_toolResult_missMap o _ res hrty hnone]
      rfl
    · rw [mergeStep_toolResult_missKey o _ res hrty
        (by simpa using hkc)]
      rfl


/-- C2: in the merge pass, a `human_intervention_request` with truthy
`request_id` `kv` followed later by a human-intervention response with
the same `request_id` and action `accept` — no other message touching
`kv` or carrying the pair's ids — yields exactly one derived entry for
the pair: the request entry with status `accepted` (and the configured
confirmation text); and a response whose `request_id` matches no earlier
open request contributes no entry at all (the derived sequence is
unchanged by it). -/
theorem C2_hil_merge (o : MapperOptions) :
    (∀ (pre mid post : List RawProtocolMessage)
      (req resp : RawProtocolMessage) (kv : JsVal),
      kv.truthy = true →
      req.message_type = "human_intervention_request" →
      resp.message_type = "human_intervention_response" →
      req.payload.get "request_id" = kv →
      resp.payload.get "request_id" = kv →
      resp.payload.get "action" = .str "accept" →
      ((resp.payload.get "response_text").orJs
        (.str o.strings.hil.responded)).truthy = true →
      (∀ m ∈ pre ++ mid ++ post,
        benign o req.id resp.id none (some kv) m) →
      (mergeMessages o
          (pre ++ [req] ++ mid ++ [resp] ++ post)).filter
          (pairP req.id resp.id)
        = [{ toUIMessage o req with
            hilStatus := some .accepted
            hilResponseText := .str o.strings.hil.confirmed }]
      ∧ ({ toUIMessage o req with
            hilStatus := some HilStatus.accepted
            hilResponseText :=
              JsVal.str o.strings.hil.confirmed } : UIMessage).id
          = req.id
      ∧ ({ toUIMessage o req with
            hilStatus := some HilStatus.accepted
            hilResponseText :=
              JsVal.str o.strings.hil.confirmed } : UIMessage).hilStatus
          = some HilStatus.accepted)
    ∧ (∀ (msgs : List RawProtocolMessage) (resp : RawProtocolMessage),
        resp.message_type = "human_intervention_response" →
        ((resp.payload.get "response_text").orJs
          (.str o.strings.hil.responded)).truthy = true →
        (∀ m ∈ msgs, ¬ registersHilKey o
          (resp.payload.get "request_id") m) →
        mergeMessages o (msgs ++ [resp]) = mergeMessages o msgs) := by
  constructor
  · intro pre mid post req resp kv hkv hqmt hpmt hqkey hpkey haction
      htext hothers
    have hqty : (toUIMessage o req).type = .hil_request := by
      rw [uiOf_hil_request o req hqmt]
    have hpty : (toUIMessage o resp).type = .unknown := by
      rw [uiOf_hil_response o resp hpmt]
    have hqkui : (toUIMessage o req).hilRequestId = kv := by
      rw [uiOf_hil_request o req hqmt]
      show (req.payload.get "request_id").orJs (.str "") = kv
      rw [hqkey]
      exact orJs_of_truthy kv _ hkv
    have hptext : (toUIMessage o resp).hilResponseText.truthy = true := by
      rw [uiOf_hil_response o resp hpmt]
      show ((resp.payload.get "response_text").orJs
        (.str o.strings.hil.responded)).truthy = true
      exact htext
    have hPq : pairP req.id resp.id (toUIMessage o req) = true := by
      simp [pairP, uiOf_id]
    have hpre : ∀ m ∈ pre, benign o req.id resp.id none (some kv) m :=
      fun m hm => hothers m (by simp [hm])
    have hmid : ∀ m ∈ mid, benign o req.id resp.id none (some kv) m :=
      fun m hm => hothers m (by simp [hm])
    have hpost : ∀ m ∈ post, benign o req.id resp.id none (some kv) m :=
      fun m hm => hothers m (by simp [hm])
    have I1 := mergeFold_preserve o req.id resp.id none (some kv)
      none none none (some kv) [] pre hpre
      (fun _ _ _ h => Option.noConfusion h)
      (fun _ h => Option.noConfusion h)
      (fun _ _ _ h => Option.noConfusion h) (fun k h => h)
      initMergeState (MInv_init req.id resp.id none (some kv))
    have I2 := MInv_request_step o req.id resp.id kv none
      (pre.foldl (mergeStep o) initMergeState) req hqty hqkui hkv hPq I1
    have I3 := mergeFold_preserve o req.id resp.id none (some kv)
      none
      (some (kv, (pre.foldl (mergeStep o) initMergeState).entries.length,
        toUIMessage o req)) none none [toUIMessage o req] mid hmid
      (fun _ _ _ h => Option.noConfusion h)
      (fun _ h => Option.noConfusion h)
      (fun k i E h => by cases h; rfl)
      (fun _ h => Option.noConfusion h) _ I2
    have I4 := MInv_response_step o req.id resp.id kv
      (pre.foldl (mergeStep o) initMergeState).entries.length
      (toUIMessage o req) none
      (mid.foldl (mergeStep o)
        (mergeStep o (pre.foldl (mergeStep o) initMergeState) req))
      resp hpty hptext hpkey hkv I3
    have I5 := mergeFold_preserve o req.id resp.id none (some kv)
      none
      (some (kv, (pre.foldl (mergeStep o) initMergeState).entries.length,
        applyHilResponse o (toUIMessage o resp) (toUIMessage o req)))
      none none
      [applyHilResponse o (toUIMessage o resp) (toUIMessage o req)]
      post hpost
      (fun _ _ _ h => Option.noConfusion h)
      (fun _ h => Option.noConfusion h)
      (fun k i E h => by cases h; rfl)
      (fun _ h => Option.noConfusion h) _ I4
    have hacc : applyHilResponse o (toUIMessage o resp)
        (toUIMessage o req)
        = { toUIMessage o req with
            hilStatus := some .accepted
            hilResponseText := .str o.strings.hil.confirmed } := by
      apply applyHilResponse_accept
      rw [uiOf_payload o resp]
      exact haction
    refine ⟨?_, by rw [uiOf_id], rfl⟩
    have hfold : mergeMessages o
        (pre ++ [req] ++ mid ++ [resp] ++ post)
        = (post.foldl (mergeStep o)
            (mergeStep o
              (mid.foldl (mergeStep o)
                (mergeStep o (pre.foldl (mergeStep o) initMergeState)
                  req))
              resp)).entries := by
      simp only [mergeMessages, List.foldl_append, List.foldl_cons,
        List.foldl_nil]
    rw [hfold, ← hacc]
    exact I5.1
  · intro msgs resp hpmt htext hno
    have hpty : (toUIMessage o resp).type = .unknown := by
      rw [uiOf_hil_response o resp hpmt]
    have hptext : (toUIMessage o resp).hilResponseText.truthy = true := by
      rw [uiOf_hil_response o resp hpmt]
      show ((resp.payload.get "response_text").orJs
        (.str o.strings.hil.responded)).truthy = true
      exact htext
    have hfold : mergeMessages o (msgs ++ [resp])
        = (mergeStep o (msgs.foldl (mergeStep o) initMergeState)
            resp).entries := by
      simp only [mergeMessages, List.foldl_append, List.foldl_cons,
        List.foldl_nil]
    rw [hfold]
    by_cases hrk : ((toUIMessage o resp).payload.get
        "request_id").truthy
    · have hnone : lookupKey
          (msgs.foldl (mergeStep o) initMergeState).hilRequestMap
          ((toUIMessage o resp).payload.get "request_id") = none := by
        rw [uiOf_payload o resp]
        exact mergeFold_hilMap_none o _ msgs hno initMergeState rfl
      rw [mergeStep_hilResp_dropMap o _ resp hpty hptext hnone]
      rfl
    · rw [mergeStep_hilResp_dropKey o _ resp hpty hptext
        (by simpa using hrk)]
      rfl


/-- Witness for C1: a user message, then `tool_call` id `x`, then
`tool_result` id `x` with result `"42"`; the pair yields the single
merged entry, with the call's `arguments` kept and the result string
carried; and an orphan `tool_result` is appended as its own entry. -/
theorem C1_toolResult_merge_witness :
    (mergeMessages defaultMapperOptions
        ([(⟨"u1", none, "user_command", none,
            [("text", JsVal.str "hello")], 1, none, none⟩ :
            RawProtocolMessage)]
          ++ [⟨"c1", none, "tool_call", none,
              [("tool_call_id", JsVal.str "x"),
                ("tool_name", JsVal.str "calc"),
                ("arguments", JsVal.str "a=1")], 2, none, none⟩]
          ++ [] ++
          [⟨"r1", none, "tool_result", none,
            [("tool_call_id", JsVal.str "x"),
              ("success", JsVal.jbool true),
              ("result", JsVal.str "42")], 3, none, none⟩]
          ++ [])).filter (pairP "c1" "r1")
      = [mergeToolInto
          (toUIMessage defaultMapperOptions
            ⟨"r1", none, "tool_result", none,
              [("tool_call_id", JsVal.str "x"),
                ("success", JsVal.jbool true),
                ("result", JsVal.str "42")], 3, none, none⟩)
          (toUIMessage defaultMapperOptions
            ⟨"c1", none, "tool_call", none,
              [("tool_call_id", JsVal.str "x"),
                ("tool_name", JsVal.str "calc"),
                ("arguments", JsVal.str "a=1")], 2, none, none⟩)]
    ∧ (mergeToolInto
          (toUIMessage defaultMapperOptions
            ⟨"r1", none, "tool_result", none,
              [("tool_call_id", JsVal.str "x"),
                ("success", JsVal.jbool true),
                ("result", JsVal.str "42")], 3, none, none⟩)
          (toUIMessage defaultMapperOptions
            ⟨"c1", none, "tool_call", none,
              [("tool_call_id", JsVal.str "x"),
                ("tool_name", JsVal.str "calc"),
                ("arguments", JsVal.str "a=1")], 2, none, none⟩)).type
        = UIMessageType.tool_result
    ∧ (mergeToolInto
          (toUIMessage defaultMapperOptions
            ⟨"r1", none, "tool_result", none,
              [("tool_call_id", JsVal.str "x"),
                ("success", JsVal.jbool true),
                ("result", JsVal.str "42")], 3, none, none⟩)
          (toUIMessage defaultMapperOptions
            ⟨"c1", none, "tool_call", none,
              [("tool_call_id", JsVal.str "x"),
                ("tool_name", JsVal.str "calc"),
                ("arguments", JsVal.str "a=1")], 2, none, none⟩)).result
        = JsVal.str "42"
    ∧ (mergeToolInto
          (toUIMessage defaultMapperOptions
            ⟨"r1", none, "tool_result", none,
              [("tool_call_id", JsVal.str "x"),
                ("success", JsVal.jbool true),
                ("result", JsVal.str "42")], 3, none, none⟩)
          (toUIMessage defaultMapperOptions
            ⟨"c1", none, "tool_call", none,
              [("tool_call_id", JsVal.str "x"),
                ("tool_name", JsVal.str "calc"),
                ("arguments", JsVal.str "a=1")], 2, none,
                none⟩)).payload.get "arguments"
        = JsVal.str "a=1"
    ∧ mergeMessages defaultMapperOptions
        [⟨"r9", none, "tool_result", none,
          [("tool_call_id", JsVal.str "z")], 9, none, none⟩]
      = mergeMessages defaultMapperOptions []
        ++ [toUIMessage defaultMapperOptions
            ⟨"r9", none, "tool_result", none,
              [("tool_call_id", JsVal.str "z")], 9, none, none⟩] := by
  have hb : ∀ m ∈ [(⟨"u1", none, "user_command", none,
      [("text", JsVal.str "hello")], 1, none, none⟩ :
      RawProtocolMessage)] ++ ([] : List RawProtocolMessage)
      ++ ([] : List RawProtocolMessage),
      benign defaultMapperOptions "c1" "r1" (some (JsVal.str "x"))
        none m := by
    intro m hm
    simp only [List.append_nil, List.mem_singleton] at hm
    subst hm
    exact ⟨by decide, by decide, fun k hk => by cases hk; decide,
      fun k hk => Option.noConfusion hk⟩
  have h := (C1_toolResult_merge defaultMapperOptions).1
    [⟨"u1", none, "user_command", none, [("text", JsVal.str "hello")],
      1, none, none⟩] [] []
    ⟨"c1", none, "tool_call", none,
      [("tool_call_id", JsVal.str "x"),
        ("tool_name", JsVal.str "calc"),
        ("arguments", JsVal.str "a=1")], 2, none, none⟩
    ⟨"r1", none, "tool_result", none,
      [("tool_call_id", JsVal.str "x"),
        ("success", JsVal.jbool true),
        ("result", JsVal.str "42")], 3, none, none⟩
    (JsVal.str "x") (by decide) rfl rfl (by decide) (by decide) hb
  have h2 := (C1_toolResult_merge defaultMapperOptions).2
    [] ⟨"r9", none, "tool_result", none,
      [("tool_call_id", JsVal.str "z")], 9, none, none⟩ rfl
    (fun m hm => absurd hm (by simp))
  exact ⟨h.1, h.2.1, by decide, by decide, h2⟩

/-- Witness for C2: a `human_intervention_request` id `r1` followed by an
accepting response; the pair yields one entry with status `accepted`; and
a response with no open request contributes no entry. -/
theorem C2_hil_merge_witness :
    (mergeMessages defaultMapperOptions
        (([] : List RawProtocolMessage)
          ++ [⟨"q1", none, "human_intervention_request", none,
              [("request_id", JsVal.str "r1"),
                ("description", JsVal.str "confirm?")], 1, none, none⟩]
          ++ [] ++
          [⟨"p1", none, "human_intervention_response", none,
            [("request_id", JsVal.str "r1"),
              ("action", JsVal.str "accept")], 2, none, none⟩]
          ++ [])).filter (pairP "q1" "p1")
      = [{ toUIMessage defaultMapperOptions
            ⟨"q1", none, "human_intervention_request", none,
              [("request_id", JsVal.str "r1"),
                ("description", JsVal.str "confirm?")], 1, none,
              none⟩ with
          hilStatus := some HilStatus.accepted
          hilResponseText :=
            JsVal.str defaultMapperOptions.strings.hil.confirmed }]
    ∧ ({ toUIMessage defaultMapperOptions
          ⟨"q1", none, "human_intervention_request", none,
            [("request_id", JsVal.str "r1"),
              ("description", JsVal.str "confirm?")], 1, none,
            none⟩ with
        hilStatus := some HilStatus.accepted
        hilResponseText :=
          JsVal.str defaultMapperOptions.strings.hil.confirmed } :
        UIMessage).hilStatus = some HilStatus.accepted
    ∧ mergeMessages defaultMapperOptions
        [⟨"p9", none, "human_intervention_response", none,
          [("request_id", JsVal.str "zz"),
            ("action", JsVal.str "accept")], 9, none, none⟩]
      = mergeMessages defaultMapperOptions [] := by
  have h := (C2_hil_merge defaultMapperOptions).1
    [] [] []
    ⟨"q1", none, "human_intervention_request", none,
      [("request_id", JsVal.str "r1"),
        ("description", JsVal.str "confirm?")], 1, none, none⟩
    ⟨"p1", none, "human_intervention_response", none,
      [("request_id", JsVal.str "r1"),
        ("action", JsVal.str "accept")], 2, none, none⟩
    (JsVal.str "r1") (by decide) rfl rfl (by decide) (by decide)
    (by decide) (by decide) (fun m hm => absurd hm (by simp))
  have h2 := (C2_hil_merge defaultMapperOptions).2
    [] ⟨"p9", none, "human_intervention_response", none,
      [("request_id", JsVal.str "zz"),
        ("action", JsVal.str "accept")], 9, none, none⟩ rfl (by decide)
    (fun m hm => absurd hm (by simp))
  exact ⟨h.1, h.2.2, h2⟩

